import Mathlib

/-!
Verification development for the mech/vehicle ingestion pipeline
(`mtf_ingest.py` and `blk_ingest.py`).

The Python sources are shallowly embedded: relational tables become lists of
structure values inside a `Store`, SQLAlchemy sessions become explicit state
passing (a transaction rollback restores the store captured at transaction
start), text is `List Char` with executable models of the `str` methods and
of the specific regular expressions the code uses, and fallible persistence
operations return `Except`.  Machine integers of the sources are unbounded
(`Nat`/`Int`): the code never exercises integer overflow.  Python truthiness
(`if x:` on optional strings and integers) is modelled explicitly where the
sources rely on it.  All text handled by the pipeline is ASCII, so `lower()`
is modelled as the ASCII case fold the CPython fast path performs on it.
-/

namespace MechApi

/-- Strings are modelled as lists of characters so that the character-level
normalization and matching done by the sources can be reasoned about. -/
abbrev Str := List Char

/-- Python `str.strip()` whitespace (ASCII subset): space, tab, newline,
carriage return, vertical tab, form feed. -/
def isSpaceChar (c : Char) : Bool :=
  c = ' ' || c = '\t' || c = '\n' || c = '\r' || c = '\x0b' || c = '\x0c'

/-- ASCII case folding of a single character, as `str.lower()` does on the
ASCII inputs handled by the pipeline. -/
def toLowerChar (c : Char) : Char :=
  if 65 ≤ c.toNat ∧ c.toNat ≤ 90 then Char.ofNat (c.toNat + 32) else c

/-- Model of `str.lower()`. -/
def lowerStr (s : Str) : Str := s.map toLowerChar

/-- Model of `str.lstrip()`. -/
def stripL (s : Str) : Str := s.dropWhile isSpaceChar

/-- Model of `str.rstrip()`. -/
def stripR (s : Str) : Str := (s.reverse.dropWhile isSpaceChar).reverse

/-- Model of `str.strip()`. -/
def strip (s : Str) : Str := stripR (stripL s)

/-- Does `pat` occur as the initial segment of `s`? -/
def startsWith : Str → Str → Bool
  | [], _ => true
  | _ :: _, [] => false
  | p :: ps, c :: cs => p = c && startsWith ps cs

/-- Python substring containment `needle in hay`. -/
def containsSub (needle hay : Str) : Bool :=
  (List.range (hay.length + 1)).any (fun i => startsWith needle (hay.drop i))

/-- A regex word character `\w` (ASCII subset): letters, digits, underscore. -/
def isWordCharB (c : Char) : Bool := c.isAlphanum || c = '_'

/-- Is there a `\b`-delimited occurrence of the word `w` starting at index
`i` of `t`?  All vocabulary words used by the classifiers start and end
with word characters, for which `\b` means exactly this. -/
def hasWordAt (w t : Str) (i : Nat) : Bool :=
  startsWith w (t.drop i)
  && (decide (i = 0) || (match t[i-1]? with
      | some c => !isWordCharB c
      | none => true))
  && (match t[i + w.length]? with
      | some c => !isWordCharB c
      | none => true)

/-- Model of `re.search(r"\b w \b", t)` for a single literal word `w`. -/
def searchWord (w t : Str) : Bool :=
  (List.range (t.length + 1)).any (fun i => hasWordAt w t i)

/-- Model of `re.search(r"\b(w1|w2|...)\b", t)` for an alternation of
literal words. -/
def searchAnyWord (ws : List Str) (t : Str) : Bool :=
  ws.any (fun w => searchWord w t)

/-- Model of `re.sub(r"\s+", " ", s)`: collapse every maximal whitespace run
to a single space.  The `Bool` argument records whether the previous
character was part of a whitespace run. -/
def collapseAux : Bool → Str → Str
  | _, [] => []
  | inRun, c :: rest =>
    if isSpaceChar c then
      if inRun then collapseAux true rest else ' ' :: collapseAux true rest
    else c :: collapseAux false rest

/-- Collapse whitespace runs, `re.sub(r"\s+", " ", s)`. -/
def collapseWs (s : Str) : Str := collapseAux false s

/-- Digits of a decimal literal; `none` when a non-digit appears or the
input is empty.  Mirrors the all-digits requirement of Python `int()`. -/
def parseDigits : Str → Option Nat → Option Nat
  | [], acc => acc
  | c :: cs, acc =>
    if c.isDigit then
      parseDigits cs (some ((acc.getD 0) * 10 + (c.toNat - 48)))
    else none

/-- Model of Python `int(s)` on the pipeline's inputs: surrounding
whitespace allowed, optional sign, then decimal digits; anything else
raises (`none`).  (Digit-group underscores are never present in the
ingested files and are not modelled.) -/
def parseIntPy (s : Str) : Option Int :=
  match strip s with
  | '+' :: rest => (parseDigits rest none).map (fun n => (n : Int))
  | '-' :: rest => (parseDigits rest none).map (fun n => -(n : Int))
  | t => (parseDigits t none).map (fun n => (n : Int))

/-- Model of Python `str(i)` for an integer. -/
def intToStr (i : Int) : Str := (toString i).data

/-- Python truthiness of an optional string (`None` and `""` are falsy). -/
def truthyStr (o : Option Str) : Bool := !(o.getD []).isEmpty

/-- Python truthiness of an optional integer id (`None` and `0` are falsy). -/
def truthyNat (o : Option Nat) : Bool := decide (o.getD 0 ≠ 0)

/-- Python truthiness of an optional `int` field (`None` and `0` falsy). -/
def truthyInt (o : Option Int) : Bool := decide (o.getD 0 ≠ 0)

/-- Python `a or b` for optional strings (empty string is falsy). -/
def pyOrOptStr (a b : Option Str) : Option Str :=
  if truthyStr a then a else b

/-- Python `a or b or default` producing a string. -/
def pyOrStr (a b : Option Str) (default : Str) : Str :=
  match pyOrOptStr a b with
  | some s => if s.isEmpty then default else s
  | none => default

/-! ### Vocabularies (module-level constants of the sources) -/

/-- The `EMPTY_TOKEN_VARIANTS` constant of `mtf_ingest.py` (shared by
`blk_ingest.py` through an import). -/
def EMPTY_TOKEN_VARIANTS : List Str :=
  [("-empty-").data, ("-empty").data, ("empty").data,
   ("- Empty -").data, ("-Empty-").data, ("- EMPTY -").data]

/-- Membership test `raw.strip().lower() in {v.lower() for v in
EMPTY_TOKEN_VARIANTS}`, used by both classifiers and by the finalizers. -/
def memEmptyVariants (raw : Str) : Bool :=
  (EMPTY_TOKEN_VARIANTS.map lowerStr).any (fun v => v = lowerStr (strip raw))

/-- Weapon keywords of the `mtf_ingest.guess_parsed_type` regex
`\b(lrm|srm|ml|gauss|laser|large|medium|small|ac|plasma|ppc)\b`. -/
def mtfWeaponWords : List Str :=
  [("lrm").data, ("srm").data, ("ml").data, ("gauss").data, ("laser").data,
   ("large").data, ("medium").data, ("small").data, ("ac").data,
   ("plasma").data, ("ppc").data]

/-- Component keywords tested by substring containment in
`mtf_ingest.guess_parsed_type`. -/
def mtfComponentSubstrings : List Str :=
  [("actuator").data, ("shoulder").data, ("hip").data, ("foot").data,
   ("hand").data, ("gyro").data, ("engine").data, ("sensors").data,
   ("cockpit").data, ("life support").data, ("heat sink").data,
   ("jump jet").data]

/-- The ordered `COMPONENT_KEYWORDS` mapping of `mtf_ingest.py`
(keyword pattern, component-type name); iteration order is the literal
order, as for a Python dict. -/
def COMPONENT_KEYWORDS : List (Str × Str) :=
  [(("actuator").data, ("actuator").data),
   (("shoulder").data, ("actuator").data),
   (("upper arm").data, ("actuator").data),
   (("lower arm").data, ("actuator").data),
   (("hand").data, ("actuator").data),
   (("hip").data, ("actuator").data),
   (("upper leg").data, ("actuator").data),
   (("lower leg").data, ("actuator").data),
   (("foot").data, ("actuator").data),
   (("fusion engine").data, ("engine").data),
   (("engine").data, ("engine").data),
   (("gyro").data, ("gyro").data),
   (("cockpit").data, ("cockpit").data),
   (("life support").data, ("life_support").data),
   (("sensors").data, ("sensors").data),
   (("heat sink").data, ("heat_sink").data),
   (("jump jet").data, ("jump_jet").data),
   (("case").data, ("case").data)]

/-- First weapon-pattern word list of `blk_ingest.guess_parsed_type`:
`\b(lrm|srm|ac|laser|ppc|gauss|ml|large|medium|small|mg|machine gun)\b`. -/
def blkWeaponWords1 : List Str :=
  [("lrm").data, ("srm").data, ("ac").data, ("laser").data, ("ppc").data,
   ("gauss").data, ("ml").data, ("large").data, ("medium").data,
   ("small").data, ("mg").data, ("machine gun").data]

/-- Second weapon-pattern word list of `blk_ingest.guess_parsed_type`:
`\b(autocannon|missile|flamer|cannon)\b`. -/
def blkWeaponWords2 : List Str :=
  [("autocannon").data, ("missile").data, ("flamer").data, ("cannon").data]

/-- Component keywords tested by substring containment in
`blk_ingest.guess_parsed_type`. -/
def blkComponentSubstrings : List Str :=
  [("engine").data, ("gyro").data, ("sensor").data, ("heat sink").data,
   ("case").data, ("armor").data]

/-! ### Token classifiers -/

/-- Ammo test of `mtf_ingest.guess_parsed_type`:
`"ammo" in t or re.search(r"\bamm?o\b", t)`. -/
def mtfAmmoTest (t : Str) : Bool :=
  containsSub ("ammo").data t || searchAnyWord [("amo").data, ("ammo").data] t

/-- Weapon test of `mtf_ingest.guess_parsed_type`. -/
def mtfWeaponTest (t : Str) : Bool := searchAnyWord mtfWeaponWords t

/-- Component test of `mtf_ingest.guess_parsed_type`:
`any(kw in t for kw in [...])`. -/
def mtfComponentTest (t : Str) : Bool :=
  mtfComponentSubstrings.any (fun k => containsSub k t)

/-- Ammo test of `blk_ingest.guess_parsed_type`:
`"ammo" in t or re.search(r"\b(ammo|ammunition)\b", t)`. -/
def blkAmmoTest (t : Str) : Bool :=
  containsSub ("ammo").data t
  || searchAnyWord [("ammo").data, ("ammunition").data] t

/-- Weapon test of `blk_ingest.guess_parsed_type` (two patterns tried in
order; the result only depends on their disjunction). -/
def blkWeaponTest (t : Str) : Bool :=
  searchAnyWord blkWeaponWords1 t || searchAnyWord blkWeaponWords2 t

/-- Component test of `blk_ingest.guess_parsed_type`. -/
def blkComponentTest (t : Str) : Bool :=
  blkComponentSubstrings.any (fun k => containsSub k t)

namespace Mtf

/-- Model of `mtf_ingest.guess_parsed_type` (source lines 421-433): rule
order is ammo, weapon, component, empty sentinel, unknown. -/
def guess_parsed_type (raw : Str) : Str :=
  let t := lowerStr raw
  if mtfAmmoTest t then ("ammo").data
  else if mtfWeaponTest t then ("weapon").data
  else if mtfComponentTest t then ("component").data
  else if memEmptyVariants raw then ("empty").data
  else ("unknown").data

end Mtf

namespace Blk

/-- Model of `blk_ingest.guess_parsed_type` (source lines 318-345): rule
order is ammo, weapon, component, empty sentinel, unknown. -/
def guess_parsed_type (raw : Str) : Str :=
  let t := lowerStr raw
  if blkAmmoTest t then ("ammo").data
  else if blkWeaponTest t then ("weapon").data
  else if blkComponentTest t then ("component").data
  else if memEmptyVariants raw then ("empty").data
  else ("unknown").data

end Blk

/-- Modelled from the spec: the rule order of §4.2 applies the
empty-sentinel membership test FIRST.  Stated for the mech vocabulary; it
is compared against `Mtf.guess_parsed_type` (which tests empty last). -/
def classifierSpecOrderMtf (raw : Str) : Str :=
  if memEmptyVariants raw then ("empty").data
  else if mtfAmmoTest (lowerStr raw) then ("ammo").data
  else if mtfWeaponTest (lowerStr raw) then ("weapon").data
  else if mtfComponentTest (lowerStr raw) then ("component").data
  else ("unknown").data

/-- Modelled from the spec: §4.2 rule order for the vehicle vocabulary,
empty sentinel first, compared against `Blk.guess_parsed_type`. -/
def classifierSpecOrderBlk (raw : Str) : Str :=
  if memEmptyVariants raw then ("empty").data
  else if blkAmmoTest (lowerStr raw) then ("ammo").data
  else if blkWeaponTest (lowerStr raw) then ("weapon").data
  else if blkComponentTest (lowerStr raw) then ("component").data
  else ("unknown").data

/-- Characters that can occur in a lowered empty-sentinel string, plus
whitespace. -/
def goodChar (c : Char) : Bool :=
  isSpaceChar c || decide (c ∈ ("-empty ").data)


/-! ### Normalization helpers of `mtf_ingest.py` -/

/-- Model of `mtf_ingest.normalize_token` (source lines 401-411): strip;
empty becomes `None`; replace every character that is not a word
character, whitespace, or a hyphen by a space; strip and lower; collapse
whitespace runs; an empty-sentinel token becomes `None`. -/
def normalize_token (s : Str) : Option Str :=
  let s2 := strip s
  if s2.isEmpty then none
  else
    let s2a := s2.map (fun c =>
      if !(isWordCharB c || isSpaceChar c || c = '-') then ' ' else c)
    let s2l := lowerStr (strip s2a)
    let s2c := collapseWs s2l
    if (EMPTY_TOKEN_VARIANTS.map lowerStr).any (fun v => v = s2c) then none
    else some s2c

/-- Model of `mtf_ingest.try_int` on an optional string value:
`int(str(x).strip())` with every failure mapped to `None`. -/
def try_int (x : Option Str) : Option Int :=
  match x with
  | none => none
  | some s => parseIntPy (strip s)

/-! ### Data model: one `Store` holds every table of the shared database -/

/-- Row of the `weapon` catalog table. -/
structure WeaponRow where
  id : Nat
  name : Str
  category : Option Str
  damage : Option Int
  deriving DecidableEq

/-- Row of the `weapon_alias` catalog table; `weapon_id` is a nullable
foreign key column.  (`alias` is a reserved word in Lean, hence the
guillemets.) -/
structure WeaponAliasRow where
  «alias» : Str
  weapon_id : Option Nat
  deriving DecidableEq

/-- Row of the `component_type` catalog table. -/
structure ComponentTypeRow where
  id : Nat
  name : Str
  category : Option Str
  deriving DecidableEq

/-- Row of the `manufacturer` table. -/
structure ManufacturerRow where
  id : Nat
  name : Str
  deriving DecidableEq

/-- Row of the `factory` table. -/
structure FactoryRow where
  id : Nat
  name : Str
  deriving DecidableEq

/-- Row of the `quirk` table. -/
structure QuirkRow where
  id : Nat
  code : Str
  deriving DecidableEq

/-- Row of the `mech` table (the `created_at`, `bv`, `pv` columns carry no
logic exercised by the claims and are omitted). -/
structure MechRow where
  id : Nat
  chassis : Str
  model : Option Str
  mul_id : Option Int
  config : Option Str
  techbase : Option Str
  era : Option Str
  source : Option Str
  rules_level : Option Int
  role : Option Str
  raw_doc : Option Str
  deriving DecidableEq

/-- Row of the `location` table (equipment zone of a mech). -/
structure LocationRow where
  id : Nat
  mech_id : Nat
  name : Str
  deriving DecidableEq

/-- Row of the `staging_slot` table. -/
structure StagingSlotRow where
  id : Nat
  file_name : Str
  mech_external_id : Option Str
  location_name : Str
  slot_index : Nat
  raw_text : Str
  parsed_name : Option Str
  parsed_type : Str
  weapon_id : Option Nat
  component_type_id : Option Nat
  resolved : Bool
  resolution_hint : Option Str
  deriving DecidableEq

/-- Row of the `staging_unresolved` table (`last_seen` is a wall-clock
timestamp and is omitted). -/
structure StagingUnresolvedRow where
  token : Str
  sample_raw : Str
  example_staging_id : Nat
  seen_count : Nat
  deriving DecidableEq

/-- Row of the `slot` table. -/
structure SlotRow where
  id : Nat
  location_id : Nat
  slot_index : Nat
  raw_text : Str
  component_type_id : Option Nat
  note : Option Str
  deriving DecidableEq

/-- Row of the `weapon_instance` table. -/
structure WeaponInstanceRow where
  id : Nat
  slot_id : Nat
  weapon_id : Option Nat
  qty : Nat
  deriving DecidableEq

/-- Row of the `mech_system_manufacturer` table. -/
structure MechSystemManufacturerRow where
  id : Nat
  mech_id : Nat
  system_type : Str
  manufacturer_name : Str
  deriving DecidableEq

/-- Row of the `mech_narrative` table. -/
structure MechNarrativeRow where
  id : Nat
  mech_id : Nat
  overview : Option Str
  capabilities : Option Str
  deployment : Option Str
  history : Option Str
  notes : Option Str
  deriving DecidableEq

/-- Row of the `loader_log` table. -/
structure LoaderLogRow where
  id : Nat
  file_name : Str
  status : Str
  message : Str
  deriving DecidableEq

/-- Row of the `bv_pv_job` queue table (timestamps and result columns
filled by the external worker are omitted). -/
structure BvPvJobRow where
  id : Nat
  unit_kind : Str
  name : Str
  variant : Option Str
  mul_type : Option Str
  status : Str
  attempts : Nat
  deriving DecidableEq

/-- Row of the `vehicle` table of `blk_ingest.py` (`tonnage` is a float
column never read by any logic under verification and is omitted;
`created_at` likewise). -/
structure VehicleRow where
  id : Nat
  name : Str
  model : Option Str
  mul_id : Option Int
  unit_type : Option Str
  year : Option Int
  original_build_year : Option Int
  type_classification : Option Str
  role : Option Str
  motion_type : Option Str
  cruise_mp : Option Int
  engine_type : Option Int
  fuel_type : Option Str
  source : Option Str
  raw_doc : Option Str
  deriving DecidableEq

/-- Row of the `vehicle_location` table. -/
structure VehicleLocationRow where
  id : Nat
  vehicle_id : Nat
  name : Str
  deriving DecidableEq

/-- Row of the `staging_vehicle_slot` table (it has no component-type
column). -/
structure StagingVehicleSlotRow where
  id : Nat
  file_name : Str
  vehicle_external_id : Option Str
  location_name : Str
  slot_index : Nat
  raw_text : Str
  parsed_name : Option Str
  parsed_type : Str
  weapon_id : Option Nat
  resolved : Bool
  resolution_hint : Option Str
  deriving DecidableEq

/-- Row of the `vehicle_slot` table. -/
structure VehicleSlotRow where
  id : Nat
  location_id : Nat
  slot_index : Nat
  raw_text : Str
  note : Option Str
  deriving DecidableEq

/-- Row of the `vehicle_weapon_instance` table. -/
structure VehicleWeaponInstanceRow where
  id : Nat
  slot_id : Nat
  weapon_id : Option Nat
  qty : Nat
  deriving DecidableEq

/-- Row of the `vehicle_system_manufacturer` table. -/
structure VehicleSystemManufacturerRow where
  id : Nat
  vehicle_id : Nat
  system_type : Str
  manufacturer_name : Str
  deriving DecidableEq

/-- Row of the `vehicle_armor` table. -/
structure VehicleArmorRow where
  id : Nat
  vehicle_id : Nat
  location : Str
  points : Int
  deriving DecidableEq

/-- The whole relational store shared by both pipelines.  Tables are lists
in insertion (rowid) order; `nextId` models autoincrement id assignment
(a single allocator covering all tables: claims only compare ids for
equality, never across tables). -/
structure Store where
  mechs : List MechRow
  locations : List LocationRow
  slots : List SlotRow
  weapon_instances : List WeaponInstanceRow
  staging : List StagingSlotRow
  unresolvedTokens : List StagingUnresolvedRow
  weapons : List WeaponRow
  aliases : List WeaponAliasRow
  component_types : List ComponentTypeRow
  manufacturers : List ManufacturerRow
  factories : List FactoryRow
  quirks : List QuirkRow
  mech_quirk : List (Nat × Nat)
  mech_manufacturer : List (Nat × Nat)
  mech_factory : List (Nat × Nat)
  narratives : List MechNarrativeRow
  system_manufacturers : List MechSystemManufacturerRow
  loader_log : List LoaderLogRow
  bv_pv_jobs : List BvPvJobRow
  vehicles : List VehicleRow
  vehicle_locations : List VehicleLocationRow
  vehicle_slots : List VehicleSlotRow
  vehicle_weapon_instances : List VehicleWeaponInstanceRow
  vehicle_staging : List StagingVehicleSlotRow
  vehicle_system_manufacturers : List VehicleSystemManufacturerRow
  vehicle_armor : List VehicleArmorRow
  vehicle_manufacturer : List (Nat × Nat)
  vehicle_factory : List (Nat × Nat)
  nextId : Nat
  deriving DecidableEq

/-- The store of a freshly created database (rowids start at 1). -/
def emptyStore : Store :=
  ⟨[], [], [], [], [], [], [], [], [], [], [], [], [], [], [], [], [], [],
   [], [], [], [], [], [], [], [], [], [], 1⟩

/-! ### Resolution engine -/

/-- Map a per-row transformer over a table while summing the number of
rows it reports as updated (the in-place mutation loop of the sources). -/
def mapCount (f : α → α × Nat) : List α → List α × Nat
  | [] => ([], 0)
  | x :: xs =>
    let r := f x
    let rest := mapCount f xs
    (r.1 :: rest.1, r.2 + rest.2)

/-- One weapon-matching step of `resolve_staging` (source lines 729-753):
rows outside the query filter (`parsed_type == 'weapon'` and
`parsed_name != None`) are untouched; an already-resolved row with a
truthy `weapon_id` is skipped; otherwise exact catalog-name match is
tried first and alias match only on a miss. -/
def weaponStep (weapons : List WeaponRow) (aliases : List WeaponAliasRow)
    (s : StagingSlotRow) : StagingSlotRow × Nat :=
  if s.parsed_type = ("weapon").data ∧ s.parsed_name.isSome then
    if s.resolved && truthyNat s.weapon_id then (s, 0)
    else
      match s.parsed_name with
      | none => (s, 0)
      | some pn =>
        match weapons.find? (fun w => w.name = pn) with
        | some w =>
          ({s with weapon_id := some w.id, resolved := true,
                   resolution_hint := some (("exact").data)}, 1)
        | none =>
          match aliases.find? (fun a => a.«alias» = pn) with
          | some a =>
            ({s with weapon_id := a.weapon_id, resolved := true,
                     resolution_hint := some (("alias").data)}, 1)
          | none => (s, 0)
  else (s, 0)

/-- Component auto-resolution step of `resolve_staging` (lines 755-765). -/
def componentStep (s : StagingSlotRow) : StagingSlotRow × Nat :=
  if s.parsed_type = ("component").data ∧ s.component_type_id.isSome
      ∧ s.resolved = false then
    ({s with resolved := true,
             resolution_hint := some (("component").data)}, 1)
  else (s, 0)

/-- Empty auto-resolution step of `resolve_staging` (lines 767-776). -/
def emptyStep (s : StagingSlotRow) : StagingSlotRow × Nat :=
  if s.parsed_type = ("empty").data ∧ s.resolved = false then
    ({s with resolved := true, resolution_hint := some (("empty").data)}, 1)
  else (s, 0)

/-- Entry of the in-memory `token_map` dictionary built by
`resolve_staging` (lines 785-791). -/
structure TokenInfo where
  token : Str
  sample_raw : Str
  example_id : Nat
  count : Nat
  deriving DecidableEq

/-- Replace the first element satisfying `p` by its image under `f`
(pointwise mutation of the row an SQLAlchemy primary-key `get` returned). -/
def updateFirst (p : α → Bool) (f : α → α) : List α → List α
  | [] => []
  | x :: xs => if p x then f x :: xs else x :: updateFirst p f xs

/-- Account one unresolved row under its token in `token_map`: a new key
stores the first sample and example id with count 0, then the count is
incremented. -/
def bumpToken (m : List TokenInfo) (tok raw : Str) (sid : Nat) :
    List TokenInfo :=
  if (m.find? (fun e => e.token = tok)).isSome then
    updateFirst (fun e => e.token = tok)
      (fun e => {e with count := e.count + 1}) m
  else m ++ [⟨tok, raw, sid, 1⟩]

/-- Build `token_map` from the unresolved weapon rows (lines 785-791); a
falsy (`None` or empty) `parsed_name` is skipped. -/
def buildTokenMap (rows : List StagingSlotRow) : List TokenInfo :=
  rows.foldl (fun m s =>
    if truthyStr s.parsed_name then
      bumpToken m (s.parsed_name.getD []) s.raw_text s.id
    else m) []

/-- Upsert one `token_map` entry into `staging_unresolved`
(lines 793-802): an existing row gets its sample and example refreshed
and its count increased; a missing row is inserted with the entry's
count. -/
def upsertUnresolved (rows : List StagingUnresolvedRow) (e : TokenInfo) :
    List StagingUnresolvedRow :=
  if (rows.find? (fun u => u.token = e.token)).isSome then
    updateFirst (fun u => u.token = e.token)
      (fun u => {u with sample_raw := e.sample_raw,
                        example_staging_id := e.example_id,
                        seen_count := u.seen_count + e.count}) rows
  else rows ++ [⟨e.token, e.sample_raw, e.example_id, e.count⟩]

namespace Mtf

/-- Model of `mtf_ingest.resolve_staging` (source lines 723-805).
Returns the updated store, the number of rows newly resolved in this
pass, and the number of distinct unresolved tokens seen by this pass. -/
def resolve_staging (σ : Store) : Store × Nat × Nat :=
  let r1 := mapCount (weaponStep σ.weapons σ.aliases) σ.staging
  let r2 := mapCount componentStep r1.1
  let r3 := mapCount emptyStep r2.1
  let unresolvedRows := r3.1.filter (fun s =>
    s.parsed_type = ("weapon").data
    ∧ (s.weapon_id = none ∨ s.resolved = false))
  let tm := buildTokenMap unresolvedRows
  let su := tm.foldl upsertUnresolved σ.unresolvedTokens
  ({σ with staging := r3.1, unresolvedTokens := su},
   r1.2 + r2.2 + r3.2, tm.length)

end Mtf

/-- One weapon-matching step of `resolve_vehicle_staging`
(source lines 481-502); identical matching logic to the mech pipeline's
weapon step, over vehicle staging rows. -/
def vehicleWeaponStep (weapons : List WeaponRow)
    (aliases : List WeaponAliasRow) (s : StagingVehicleSlotRow) :
    StagingVehicleSlotRow × Nat :=
  if s.parsed_type = ("weapon").data ∧ s.parsed_name.isSome then
    if s.resolved && truthyNat s.weapon_id then (s, 0)
    else
      match s.parsed_name with
      | none => (s, 0)
      | some pn =>
        match weapons.find? (fun w => w.name = pn) with
        | some w =>
          ({s with weapon_id := some w.id, resolved := true,
                   resolution_hint := some (("exact").data)}, 1)
        | none =>
          match aliases.find? (fun a => a.«alias» = pn) with
          | some a =>
            ({s with weapon_id := a.weapon_id, resolved := true,
                     resolution_hint := some (("alias").data)}, 1)
          | none => (s, 0)
  else (s, 0)

namespace Blk

/-- Model of `blk_ingest.resolve_vehicle_staging` (source lines 468-512).
There is no component or empty auto-resolution in this pipeline; the
second returned number is the count of unresolved weapon rows (not of
distinct tokens). -/
def resolve_vehicle_staging (σ : Store) : Store × Nat × Nat :=
  let r1 := mapCount (vehicleWeaponStep σ.weapons σ.aliases)
    σ.vehicle_staging
  let unresolvedCount := (r1.1.filter (fun s =>
    s.parsed_type = ("weapon").data
    ∧ (s.weapon_id = none ∨ s.resolved = false))).length
  ({σ with vehicle_staging := r1.1}, r1.2, unresolvedCount)

end Blk

/-! ### Finalizer -/

/-- The mech lookup done by `finalize_slots_from_staging` for one staging
row (source lines 816-823): a falsy external id, an unparsable external
id, or a missing mech all yield `none` (the row is skipped). -/
def mechLookup (σ : Store) (s : StagingSlotRow) : Option MechRow :=
  if truthyStr s.mech_external_id then
    match parseIntPy (s.mech_external_id.getD []) with
    | none => none
    | some n => σ.mechs.find? (fun m => m.mul_id = some n)
  else none

namespace Mtf

/-- One iteration of the `finalize_slots_from_staging` loop
(source lines 815-863) over the accumulated (store, slots created,
weapon instances created). -/
def finStep (acc : Store × Nat × Nat) (s : StagingSlotRow) :
    Store × Nat × Nat :=
  let σ := acc.1
  match mechLookup σ s with
  | none => acc
  | some mech =>
    let locRes :=
      match σ.locations.find? (fun l =>
          l.mech_id = mech.id ∧ l.name = s.location_name) with
      | some l => (σ, l)
      | none =>
        let l : LocationRow := ⟨σ.nextId, mech.id, s.location_name⟩
        ({σ with locations := σ.locations ++ [l],
                 nextId := σ.nextId + 1}, l)
    let σ1 := locRes.1
    let loc := locRes.2
    match σ1.slots.find? (fun sl =>
        sl.location_id = loc.id ∧ sl.slot_index = s.slot_index) with
    | some _ => (σ1, acc.2)
    | none =>
      let note := if ¬s.raw_text.isEmpty ∧ memEmptyVariants s.raw_text
        then some (("Empty").data) else none
      let slot : SlotRow :=
        ⟨σ1.nextId, loc.id, s.slot_index, s.raw_text,
         s.component_type_id, note⟩
      let σ2 := {σ1 with slots := σ1.slots ++ [slot],
                         nextId := σ1.nextId + 1}
      if truthyNat s.weapon_id then
        let winst : WeaponInstanceRow :=
          ⟨σ2.nextId, slot.id, s.weapon_id, 1⟩
        ({σ2 with weapon_instances := σ2.weapon_instances ++ [winst],
                  nextId := σ2.nextId + 1},
         acc.2.1 + 1, acc.2.2 + 1)
      else (σ2, acc.2.1 + 1, acc.2.2)

/-- Model of `mtf_ingest.finalize_slots_from_staging`
(source lines 807-866): fold the per-row step over every resolved
staging row, returning (store, Slots created, WeaponInstances created). -/
def finalize_slots_from_staging (σ : Store) : Store × Nat × Nat :=
  (σ.staging.filter (fun s => s.resolved = true)).foldl finStep (σ, 0, 0)

end Mtf

/-- The vehicle lookup done by `finalize_vehicle_slots` for one staging
row (source lines 526-539): an integral external id is looked up as
`mul_id`; a non-integral one falls back to a lookup by vehicle name. -/
def vehicleLookup (σ : Store) (s : StagingVehicleSlotRow) :
    Option VehicleRow :=
  if truthyStr s.vehicle_external_id then
    match parseIntPy (s.vehicle_external_id.getD []) with
    | some n => σ.vehicles.find? (fun v => v.mul_id = some n)
    | none => σ.vehicles.find? (fun v =>
        v.name = s.vehicle_external_id.getD [])
  else none

namespace Blk

/-- One iteration of the `finalize_vehicle_slots` loop
(source lines 525-585). -/
def finStepV (acc : Store × Nat × Nat) (s : StagingVehicleSlotRow) :
    Store × Nat × Nat :=
  let σ := acc.1
  match vehicleLookup σ s with
  | none => acc
  | some veh =>
    let locRes :=
      match σ.vehicle_locations.find? (fun l =>
          l.vehicle_id = veh.id ∧ l.name = s.location_name) with
      | some l => (σ, l)
      | none =>
        let l : VehicleLocationRow := ⟨σ.nextId, veh.id, s.location_name⟩
        ({σ with vehicle_locations := σ.vehicle_locations ++ [l],
                 nextId := σ.nextId + 1}, l)
    let σ1 := locRes.1
    let loc := locRes.2
    match σ1.vehicle_slots.find? (fun sl =>
        sl.location_id = loc.id ∧ sl.slot_index = s.slot_index) with
    | some _ => (σ1, acc.2)
    | none =>
      let note := if ¬s.raw_text.isEmpty ∧ memEmptyVariants s.raw_text
        then some (("Empty").data) else none
      let slot : VehicleSlotRow :=
        ⟨σ1.nextId, loc.id, s.slot_index, s.raw_text, note⟩
      let σ2 := {σ1 with vehicle_slots := σ1.vehicle_slots ++ [slot],
                         nextId := σ1.nextId + 1}
      if truthyNat s.weapon_id then
        let winst : VehicleWeaponInstanceRow :=
          ⟨σ2.nextId, slot.id, s.weapon_id, 1⟩
        ({σ2 with vehicle_weapon_instances :=
                    σ2.vehicle_weapon_instances ++ [winst],
                  nextId := σ2.nextId + 1},
         acc.2.1 + 1, acc.2.2 + 1)
      else (σ2, acc.2.1 + 1, acc.2.2)

/-- Model of `blk_ingest.finalize_vehicle_slots` (source lines 514-588). -/
def finalize_vehicle_slots (σ : Store) : Store × Nat × Nat :=
  (σ.vehicle_staging.filter (fun s => s.resolved = true)).foldl
    finStepV (σ, 0, 0)

end Blk

/-! ### Staging writer (ingestion) -/

/-- The parsed-unit structure `ParsedMech` of `mtf_ingest.py`; dicts are
association lists in insertion order. -/
structure ParsedMech where
  chassis : Option Str
  model : Option Str
  mul_id : Option Int
  config : Option Str
  techbase : Option Str
  era : Option Str
  source : Option Str
  rules_level : Option Int
  role : Option Str
  quirks : List Str
  specs : List (Str × Str)
  locations : List (Str × List Str)
  narratives : List (Str × Str)
  manufacturer : List Str
  factory : List Str
  systemmanufacturer : List Str
  raw_text : Option Str
  deriving DecidableEq

/-- The parsed-unit structure `ParsedVehicle` of `blk_ingest.py`
(`tonnage`, a float, is omitted: nothing under verification reads it). -/
structure ParsedVehicle where
  name : Option Str
  model : Option Str
  mul_id : Option Int
  unit_type : Option Str
  year : Option Int
  original_build_year : Option Int
  type_classification : Option Str
  role : Option Str
  motion_type : Option Str
  cruise_mp : Option Int
  engine_type : Option Int
  fuel_type : Option Str
  source : Option Str
  armor : List Int
  equipment : List (Str × List Str)
  system_manufacturers : List (Str × Str)
  manufacturer : List Str
  factory : List Str
  raw_text : Option Str
  deriving DecidableEq

/-- Association-list lookup modelling Python `dict.get`. -/
def dictGet (d : List (Str × Str)) (k : Str) : Option Str :=
  (d.find? (fun p => p.1 = k)).map (fun p => p.2)

/-- A uniqueness violation surfaced by a session flush
(`sqlalchemy.exc.IntegrityError`). -/
inductive IngestError where
  | integrity
  deriving DecidableEq

/-- The `--bv-pv-mode` choice of `mtf_ingest.py` restricted to the two modes
whose behavior stays inside this core.  The `sync` mode shells out to a
scraper subprocess (an external collaborator, spec §6) and is outside the
embedding; no claim depends on it. -/
inductive BvPvMode where
  | enqueue
  | skip
  deriving DecidableEq

/-- Model of `mtf_ingest.resolve_component_type` (source lines 435-458):
first matching `COMPONENT_KEYWORDS` pattern wins; the component-type
catalog row is looked up by name and lazily created. -/
def resolve_component_type (σ : Store) (raw_text : Str) :
    Store × Option Nat :=
  if raw_text.isEmpty then (σ, none)
  else
    let raw_lower := strip (lowerStr raw_text)
    match COMPONENT_KEYWORDS.find? (fun kv => containsSub kv.1 raw_lower) with
    | none => (σ, none)
    | some kv =>
      match σ.component_types.find? (fun c => c.name = kv.2) with
      | some c => (σ, some c.id)
      | none =>
        let c : ComponentTypeRow := ⟨σ.nextId, kv.2, some (("component").data)⟩
        ({σ with component_types := σ.component_types ++ [c],
                 nextId := σ.nextId + 1}, some c.id)

/-- Model of `mtf_ingest.enqueue_bv_pv_job` (source lines 487-516):
duplicate suppression against pending/processing/done jobs of the same
(unit kind, name, variant, type filter) key. -/
def enqueue_bv_pv_job (σ : Store) (unit_kind name : Str)
    (variant mul_type : Option Str) : Store :=
  if name.isEmpty then σ
  else if (σ.bv_pv_jobs.find? (fun j =>
      j.unit_kind = unit_kind ∧ j.name = name ∧ j.variant = variant
      ∧ j.mul_type = mul_type
      ∧ (j.status = ("pending").data ∨ j.status = ("processing").data
         ∨ j.status = ("done").data))).isSome then σ
  else
    {σ with bv_pv_jobs := σ.bv_pv_jobs
      ++ [⟨σ.nextId, unit_kind, name, variant, mul_type,
           ("pending").data, 0⟩],
            nextId := σ.nextId + 1}

/-- Insert a mech row, flushing it: the unique constraint on `mul_id`
raises on a duplicate non-null external id. -/
def insertMech (σ : Store) (m : MechRow) : Except IngestError Store :=
  if σ.mechs.any (fun x => x.mul_id.isSome && decide (x.mul_id = m.mul_id))
  then .error .integrity
  else .ok {σ with mechs := σ.mechs ++ [m]}

/-- Insert a mech location, flushing it: unique per (mech, name). -/
def insertLocation (σ : Store) (l : LocationRow) :
    Except IngestError Store :=
  if σ.locations.any (fun x =>
      decide (x.mech_id = l.mech_id) && decide (x.name = l.name))
  then .error .integrity
  else .ok {σ with locations := σ.locations ++ [l]}

namespace Mtf

/-- Stage the equipment lines of one location (inner loop of
`ingest_parsed_mech`, source lines 652-675), 1-based slot indexing.
Returns the store and created staging ids in order. -/
def stageItems (σ : Store) (fn : Str) (ext : Option Str) (locName : Str) :
    List Str → Nat → Store × List Nat
  | [], _ => (σ, [])
  | item :: rest, idx =>
    let raw_line := strip item
    let parsed_name := normalize_token raw_line
    let parsed_type := guess_parsed_type raw_line
    let compRes :=
      if parsed_type = ("component").data then
        resolve_component_type σ raw_line
      else (σ, none)
    let σ1 := compRes.1
    let sid := σ1.nextId
    let row : StagingSlotRow :=
      ⟨sid, fn, ext, locName, idx, raw_line, parsed_name, parsed_type,
       none, compRes.2, false, none⟩
    let σ2 := {σ1 with staging := σ1.staging ++ [row],
                       nextId := σ1.nextId + 1}
    let restRes := stageItems σ2 fn ext locName rest (idx + 1)
    (restRes.1, sid :: restRes.2)

/-- Stage all locations of a parsed mech (outer loop of
`ingest_parsed_mech`, source lines 647-675).  The location insert is
flushed per location and can raise on a duplicate (mech, name) key. -/
def stageLocations (σ : Store) (fn : Str) (ext : Option Str)
    (mechId : Nat) : List (Str × List Str) →
    Except IngestError (Store × List Nat)
  | [] => .ok (σ, [])
  | (locName, items) :: rest => do
    let loc : LocationRow := ⟨σ.nextId, mechId, locName⟩
    let σ1 ← insertLocation {σ with nextId := σ.nextId + 1} loc
    let itemRes := stageItems σ1 fn ext locName items 1
    let restRes ← stageLocations itemRes.1 fn ext mechId rest
    .ok (restRes.1, itemRes.2 ++ restRes.2)

/-- The quirk loop of `ingest_parsed_mech` (source lines 677-689).  The
association insert catches its `IntegrityError` and calls
`session.rollback()`, which restores the state captured at transaction
start (`entry`) — the whole uncommitted unit of work, not only the
failed association insert. -/
def quirkLoop (entry : Store) (σ : Store) (mechId : Nat) :
    List Str → Store
  | [] => σ
  | q :: rest =>
    let qc := strip q
    if qc.isEmpty then quirkLoop entry σ mechId rest
    else
      let found : Store × Nat :=
        match σ.quirks.find? (fun x => x.code = qc) with
        | some x => (σ, x.id)
        | none =>
          ({σ with quirks := σ.quirks ++ [⟨σ.nextId, qc⟩],
                   nextId := σ.nextId + 1}, σ.nextId)
      let σ1 := found.1
      if (mechId, found.2) ∈ σ1.mech_quirk then
        quirkLoop entry entry mechId rest
      else
        quirkLoop entry
          {σ1 with mech_quirk := σ1.mech_quirk ++ [(mechId, found.2)]}
          mechId rest

/-- The manufacturer loop of `ingest_parsed_mech`
(source lines 691-703), with the same catch-and-rollback behavior. -/
def manufacturerLoop (entry : Store) (σ : Store) (mechId : Nat) :
    List Str → Store
  | [] => σ
  | mname :: rest =>
    let mn := strip mname
    if mn.isEmpty then manufacturerLoop entry σ mechId rest
    else
      let found : Store × Nat :=
        match σ.manufacturers.find? (fun x => x.name = mn) with
        | some x => (σ, x.id)
        | none =>
          ({σ with manufacturers := σ.manufacturers ++ [⟨σ.nextId, mn⟩],
                   nextId := σ.nextId + 1}, σ.nextId)
      let σ1 := found.1
      if (mechId, found.2) ∈ σ1.mech_manufacturer then
        manufacturerLoop entry entry mechId rest
      else
        manufacturerLoop entry
          {σ1 with mech_manufacturer :=
            σ1.mech_manufacturer ++ [(mechId, found.2)]}
          mechId rest

/-- The factory loop of `ingest_parsed_mech` (source lines 705-717). -/
def factoryLoop (entry : Store) (σ : Store) (mechId : Nat) :
    List Str → Store
  | [] => σ
  | fname :: rest =>
    let fn := strip fname
    if fn.isEmpty then factoryLoop entry σ mechId rest
    else
      let found : Store × Nat :=
        match σ.factories.find? (fun x => x.name = fn) with
        | some x => (σ, x.id)
        | none =>
          ({σ with factories := σ.factories ++ [⟨σ.nextId, fn⟩],
                   nextId := σ.nextId + 1}, σ.nextId)
      let σ1 := found.1
      if (mechId, found.2) ∈ σ1.mech_factory then
        factoryLoop entry entry mechId rest
      else
        factoryLoop entry
          {σ1 with mech_factory := σ1.mech_factory ++ [(mechId, found.2)]}
          mechId rest

/-- The BV/PV handling of `ingest_parsed_mech` (source lines 600-619)
restricted to the embedded modes: `enqueue` records a job, `skip` does
nothing. -/
def bvPhase (σ : Store) (mode : BvPvMode) (chassis : Str)
    (model : Option Str) : Store :=
  match mode with
  | .enqueue => enqueue_bv_pv_job σ (("mech").data) chassis model none
  | .skip => σ

/-- The system-manufacturer loop of `ingest_parsed_mech`
(source lines 621-633). -/
def sysMfgPhase (σ : Store) (mechId : Nat) (ls : List Str) : Store :=
  ls.foldl (fun σ sys_info =>
    if (':') ∈ sys_info then
      let parts := sys_info.span (fun c => c ≠ ':')
      let sys_type := strip parts.1
      let mfg_name := strip (parts.2.drop 1)
      {σ with system_manufacturers := σ.system_manufacturers
        ++ [⟨σ.nextId, mechId, sys_type, mfg_name⟩],
              nextId := σ.nextId + 1}
    else σ) σ

/-- The narrative block of `ingest_parsed_mech` (source lines 635-645). -/
def narrativePhase (σ : Store) (mechId : Nat) (parsed : ParsedMech) :
    Store :=
  if parsed.narratives.isEmpty then σ
  else
    {σ with narratives := σ.narratives ++
      [⟨σ.nextId, mechId,
        dictGet parsed.narratives (("overview").data),
        dictGet parsed.narratives (("capabilities").data),
        dictGet parsed.narratives (("deployment").data),
        dictGet parsed.narratives (("history").data),
        dictGet parsed.specs (("notes").data)⟩],
            nextId := σ.nextId + 1}

/-- The final loader-log insert of `ingest_parsed_mech`
(source line 719). -/
def logPhase (σ : Store) (source_filename : Str) : Store :=
  {σ with loader_log := σ.loader_log ++
    [⟨σ.nextId, source_filename, ("ok").data, ("ingested").data⟩],
          nextId := σ.nextId + 1}

/-- Model of `mtf_ingest.ingest_parsed_mech` (source lines 579-721) for
the `enqueue` and `skip` BV/PV modes.  `σ₀` is the state at transaction
start; an association-insert conflict inside the quirk, manufacturer or
factory loop rolls the session back to it.  An uncaught flush failure
(duplicate mech `mul_id`, duplicate location) propagates to the caller,
which rolls back the whole document. -/
def ingest_parsed_mech (σ₀ : Store) (parsed : ParsedMech)
    (source_filename : Str) (mode : BvPvMode) :
    Except IngestError (Store × Nat × List Nat) := do
  let chassis := pyOrStr parsed.chassis (dictGet parsed.specs
    (("chassis").data)) (("UNKNOWN").data)
  let mechId := σ₀.nextId
  let mech : MechRow :=
    ⟨mechId, chassis, parsed.model, parsed.mul_id, parsed.config,
     parsed.techbase, parsed.era, parsed.source,
     try_int (pyOrOptStr (dictGet parsed.specs (("rules level").data))
       (dictGet parsed.specs (("rules_level").data))),
     parsed.role, parsed.raw_text⟩
  let σ1 ← insertMech {σ₀ with nextId := σ₀.nextId + 1} mech
  let σ2 := bvPhase σ1 mode chassis parsed.model
  let σ3 := sysMfgPhase σ2 mechId parsed.systemmanufacturer
  let σ4 := narrativePhase σ3 mechId parsed
  let ext := if parsed.mul_id.isSome
    then some (intToStr (parsed.mul_id.getD 0)) else none
  let staged ← stageLocations σ4 source_filename ext mechId
    parsed.locations
  let σ5 := staged.1
  let σ6 := quirkLoop σ₀ σ5 mechId parsed.quirks
  let σ7 := manufacturerLoop σ₀ σ6 mechId parsed.manufacturer
  let σ8 := factoryLoop σ₀ σ7 mechId parsed.factory
  let σ9 := logPhase σ8 source_filename
  .ok (σ9, mechId, staged.2)

end Mtf

/-- The armor branch of `blk_ingest.parse_blk_text` (source lines
266-276): each content line is stripped; empty lines are skipped; lines
that do not parse as integers are skipped without failing the parse. -/
def armorValues : List Str → List Int
  | [] => []
  | l :: ls =>
    let a := strip l
    if a.isEmpty then armorValues ls
    else
      match parseIntPy a with
      | some v => v :: armorValues ls
      | none => armorValues ls

/-- The fixed armor location ordering of `ingest_parsed_vehicle`
(source line 412). -/
def armor_locations : List Str :=
  [("front").data, ("left").data, ("right").data, ("rear").data,
   ("turret").data]

/-- The armor-storing loop of `ingest_parsed_vehicle` (source lines
411-420): the parsed integers are assigned positionally to the location
ordering; indices beyond the fifth are discarded. -/
def armorRowsFor (vehicleId : Nat) (armor : List Int) (firstId : Nat) :
    List VehicleArmorRow :=
  ((armor.zip armor_locations).enum.map (fun p =>
    (⟨firstId + p.1, vehicleId, p.2.2, p.2.1⟩ : VehicleArmorRow)))

/-- Insert a vehicle row, flushing it: the unique constraint on `mul_id`
and the composite (name, model, mul_id) constraint raise on duplicates
(rows with a NULL in a uniquely-indexed column are exempt, as in
SQLite). -/
def insertVehicle (σ : Store) (v : VehicleRow) : Except IngestError Store :=
  if σ.vehicles.any (fun x =>
      x.mul_id.isSome && decide (x.mul_id = v.mul_id)) then
    .error .integrity
  else if σ.vehicles.any (fun x =>
      decide (x.name = v.name) && x.model.isSome
      && decide (x.model = v.model) && x.mul_id.isSome
      && decide (x.mul_id = v.mul_id)) then
    .error .integrity
  else .ok {σ with vehicles := σ.vehicles ++ [v]}

/-- Insert a vehicle location, flushing it: unique per (vehicle, name). -/
def insertVehicleLocation (σ : Store) (l : VehicleLocationRow) :
    Except IngestError Store :=
  if σ.vehicle_locations.any (fun x =>
      decide (x.vehicle_id = l.vehicle_id) && decide (x.name = l.name))
  then .error .integrity
  else .ok {σ with vehicle_locations := σ.vehicle_locations ++ [l]}

namespace Blk

/-- Stage the equipment lines of one vehicle location (inner loop of
`ingest_parsed_vehicle`, source lines 392-409). -/
def stageItems (σ : Store) (fn : Str) (ext : Option Str) (locName : Str) :
    List Str → Nat → Store × List Nat
  | [], _ => (σ, [])
  | item :: rest, idx =>
    let raw_line := strip item
    let parsed_name := normalize_token raw_line
    let parsed_type := guess_parsed_type raw_line
    let sid := σ.nextId
    let row : StagingVehicleSlotRow :=
      ⟨sid, fn, ext, locName, idx, raw_line, parsed_name, parsed_type,
       none, false, none⟩
    let σ1 := {σ with vehicle_staging := σ.vehicle_staging ++ [row],
                      nextId := σ.nextId + 1}
    let restRes := stageItems σ1 fn ext locName rest (idx + 1)
    (restRes.1, sid :: restRes.2)

/-- Stage all equipment locations of a parsed vehicle (outer loop of
`ingest_parsed_vehicle`, source lines 387-409). -/
def stageLocations (σ : Store) (fn : Str) (ext : Option Str)
    (vehicleId : Nat) : List (Str × List Str) →
    Except IngestError (Store × List Nat)
  | [] => .ok (σ, [])
  | (locName, items) :: rest => do
    let loc : VehicleLocationRow := ⟨σ.nextId, vehicleId, locName⟩
    let σ1 ← insertVehicleLocation {σ with nextId := σ.nextId + 1} loc
    let itemRes := stageItems σ1 fn ext locName items 1
    let restRes ← stageLocations itemRes.1 fn ext vehicleId rest
    .ok (restRes.1, itemRes.2 ++ restRes.2)

/-- The manufacturer loop of `ingest_parsed_vehicle`
(source lines 432-446), with the same catch-and-`session.rollback()`
behavior as the mech pipeline: the rollback restores the state at
transaction start. -/
def manufacturerLoopV (entry : Store) (σ : Store) (vehicleId : Nat) :
    List Str → Store
  | [] => σ
  | mname :: rest =>
    let mn := strip mname
    if mn.isEmpty then manufacturerLoopV entry σ vehicleId rest
    else
      let found : Store × Nat :=
        match σ.manufacturers.find? (fun x => x.name = mn) with
        | some x => (σ, x.id)
        | none =>
          ({σ with manufacturers := σ.manufacturers ++ [⟨σ.nextId, mn⟩],
                   nextId := σ.nextId + 1}, σ.nextId)
      let σ1 := found.1
      if (vehicleId, found.2) ∈ σ1.vehicle_manufacturer then
        manufacturerLoopV entry entry vehicleId rest
      else
        manufacturerLoopV entry
          {σ1 with vehicle_manufacturer :=
            σ1.vehicle_manufacturer ++ [(vehicleId, found.2)]}
          vehicleId rest

/-- The factory loop of `ingest_parsed_vehicle` (source lines 449-463). -/
def factoryLoopV (entry : Store) (σ : Store) (vehicleId : Nat) :
    List Str → Store
  | [] => σ
  | fname :: rest =>
    let fn := strip fname
    if fn.isEmpty then factoryLoopV entry σ vehicleId rest
    else
      let found : Store × Nat :=
        match σ.factories.find? (fun x => x.name = fn) with
        | some x => (σ, x.id)
        | none =>
          ({σ with factories := σ.factories ++ [⟨σ.nextId, fn⟩],
                   nextId := σ.nextId + 1}, σ.nextId)
      let σ1 := found.1
      if (vehicleId, found.2) ∈ σ1.vehicle_factory then
        factoryLoopV entry entry vehicleId rest
      else
        factoryLoopV entry
          {σ1 with vehicle_factory :=
            σ1.vehicle_factory ++ [(vehicleId, found.2)]}
          vehicleId rest

/-- Model of `blk_ingest.ingest_parsed_vehicle` (source lines 347-466).
When the parsed document has a truthy mul id matching an existing
vehicle, that row is reused without any field update; otherwise a new
vehicle row is inserted (flushing it, which can raise).  `σ₀` is the
state at transaction start, the rollback target of the association
conflict handlers. -/
def ingest_parsed_vehicle (σ₀ : Store) (parsed : ParsedVehicle)
    (source_filename : Str) :
    Except IngestError (Store × Nat × List Nat) := do
  let name := pyOrStr parsed.name none (("UNKNOWN").data)
  let existing :=
    if truthyInt parsed.mul_id then
      σ₀.vehicles.find? (fun v => v.mul_id = parsed.mul_id)
    else none
  let vehRes : Store × Nat ←
    match existing with
    | some v => Except.ok (σ₀, v.id)
    | none => do
      let vid := σ₀.nextId
      let veh : VehicleRow :=
        ⟨vid, name, parsed.model, parsed.mul_id, parsed.unit_type,
         parsed.year, parsed.original_build_year,
         parsed.type_classification, parsed.role, parsed.motion_type,
         parsed.cruise_mp, parsed.engine_type, parsed.fuel_type,
         parsed.source, parsed.raw_text⟩
      let σ1 ← insertVehicle {σ₀ with nextId := σ₀.nextId + 1} veh
      Except.ok (σ1, vid)
  let σ1 := vehRes.1
  let vehicleId := vehRes.2
  let ext := if truthyInt parsed.mul_id
    then some (intToStr (parsed.mul_id.getD 0)) else some name
  let staged ← stageLocations σ1 source_filename ext vehicleId
    parsed.equipment
  let σ2 := staged.1
  let σ3 := {σ2 with
    vehicle_armor := σ2.vehicle_armor
      ++ armorRowsFor vehicleId parsed.armor σ2.nextId,
    nextId := σ2.nextId + (min parsed.armor.length 5)}
  let σ4 := parsed.system_manufacturers.foldl (fun σ kv =>
    {σ with vehicle_system_manufacturers :=
      σ.vehicle_system_manufacturers
        ++ [⟨σ.nextId, vehicleId, kv.1, kv.2⟩],
            nextId := σ.nextId + 1}) σ3
  let σ5 := manufacturerLoopV σ₀ σ4 vehicleId parsed.manufacturer
  let σ6 := factoryLoopV σ₀ σ5 vehicleId parsed.factory
  .ok (σ6, vehicleId, staged.2)

end Blk

/-! ### Auxiliary predicates, iteration helpers and concrete fixtures -/

/-- The net effect of one mech resolution pass on a single staging row:
weapon matching, then component auto-resolution, then empty
auto-resolution. -/
def passRow (W : List WeaponRow) (A : List WeaponAliasRow)
    (s : StagingSlotRow) : StagingSlotRow :=
  (emptyStep (componentStep (weaponStep W A s).1).1).1

/-- A well-formed weapon/alias catalog: persisted weapon rows carry the
nonzero rowids SQLite assigns, and every alias row points at a weapon
(spec §6: alias entries map an alias string to a weapon id). -/
def CatalogWF (σ : Store) : Prop :=
  (∀ w ∈ σ.weapons, w.id ≠ 0)
  ∧ (∀ a ∈ σ.aliases, truthyNat a.weapon_id = true)

/-- Key uniqueness of the `slot` table: no two rows share
(location_id, slot_index) — the `u_location_slotidx` constraint. -/
def SlotKeysUnique (σ : Store) : Prop :=
  σ.slots.Pairwise (fun a b =>
    ¬(a.location_id = b.location_id ∧ a.slot_index = b.slot_index))

/-- Iterated finalization of the mech pipeline (store component only). -/
def finIter (n : Nat) (σ : Store) : Store :=
  (fun s => (Mtf.finalize_slots_from_staging s).1)^[n] σ

/-- A staging row whose finalizer work is already present in a store:
either its unit lookup fails, or its location exists and a slot already
occupies (location, slot index).  `Mtf.finStep` does nothing on such a
row. -/
def Finalized (σ : Store) (s : StagingSlotRow) : Prop :=
  match mechLookup σ s with
  | none => True
  | some mech => ∃ loc,
      σ.locations.find? (fun l =>
        l.mech_id = mech.id ∧ l.name = s.location_name) = some loc
      ∧ (σ.slots.find? (fun sl =>
          sl.location_id = loc.id ∧ sl.slot_index = s.slot_index)).isSome

/-- The count a token holds in the in-memory `token_map`. -/
def tokCount (m : List TokenInfo) (tok : Str) : Nat :=
  match m.find? (fun e => e.token = tok) with
  | some e => e.count
  | none => 0

/-- The `staging_unresolved` rows keyed by a given token. -/
def suRowsFor (rows : List StagingUnresolvedRow) (tok : Str) :
    List StagingUnresolvedRow :=
  rows.filter (fun u => u.token = tok)

/-- Fixture: a small catalog holding the weapon `large laser` (id 1) and
an alias for it, one unresolved weapon staging row in each pipeline. -/
def c1Store : Store :=
  {emptyStore with
    weapons := [⟨1, ("large laser").data, none, none⟩],
    aliases := [⟨("ll").data, some 1⟩],
    staging := [⟨2, ("a.mtf").data, some (("5").data), ("Left Arm").data, 1,
      ("Large Laser").data, some (("large laser").data), ("weapon").data,
      none, none, false, none⟩],
    vehicle_staging := [⟨3, ("a.blk").data, some (("7").data),
      ("Front").data, 1, ("Large Laser").data,
      some (("large laser").data), ("weapon").data, none, false, none⟩],
    nextId := 4}

/-- Fixture: a token that is simultaneously a canonical weapon name
(id 1) and an alias pointing at a different weapon (id 2), with one
matching unresolved staging row per pipeline. -/
def c6Store : Store :=
  {emptyStore with
    weapons := [⟨1, ("large laser").data, none, none⟩,
                ⟨2, ("other gun").data, none, none⟩],
    aliases := [⟨("large laser").data, some 2⟩],
    staging := [⟨3, ("a.mtf").data, some (("5").data), ("Left Arm").data, 1,
      ("Large Laser").data, some (("large laser").data), ("weapon").data,
      none, none, false, none⟩],
    vehicle_staging := [⟨4, ("a.blk").data, some (("7").data),
      ("Front").data, 1, ("Large Laser").data,
      some (("large laser").data), ("weapon").data, none, false, none⟩],
    nextId := 5}

/-- Fixture: one vehicle staging row classified `empty` and one
classified `component`, both unresolved — the vehicle resolution pass
never touches them. -/
def c7Store : Store :=
  {emptyStore with
    vehicle_staging := [⟨1, ("a.blk").data, some (("7").data),
      ("Front").data, 1, ("-Empty-").data, none, ("empty").data,
      none, false, none⟩],
    nextId := 2}

/-- Fixture: a mech store with one unresolved component-typed staging row
carrying a component-type id and one unresolved empty-typed row, plus
the same vehicle staging row as `c7Store`. -/
def c7bStore : Store :=
  {emptyStore with
    component_types := [⟨9, ("heat_sink").data, some (("component").data)⟩],
    staging := [⟨1, ("a.mtf").data, some (("5").data), ("Left Arm").data, 1,
      ("Heat Sink").data, some (("heat sink").data), ("component").data,
      none, some 9, false, none⟩,
      ⟨2, ("a.mtf").data, some (("5").data), ("Left Arm").data, 2,
      ("-Empty-").data, none, ("empty").data, none, none, false, none⟩],
    vehicle_staging := [⟨3, ("a.blk").data, some (("7").data),
      ("Front").data, 1, ("-Empty-").data, none, ("empty").data,
      none, false, none⟩],
    nextId := 10}

/-- The total occurrence count a token holds across a `token_map`
(duplicate keys cannot arise, but the sum form needs no such fact). -/
def entryTokSum (m : List TokenInfo) (tok : Str) : Nat :=
  ((m.filter (fun e => e.token = tok)).map (fun e => e.count)).sum

/-- Fixture: three staged copies of an uncataloged weapon token across
two documents, with an empty catalog. -/
def c8Store : Store :=
  {emptyStore with
    staging := [⟨1, ("a.mtf").data, some (("5").data), ("Left Arm").data, 1,
      ("Zapgun").data, some (("zapgun").data), ("weapon").data,
      none, none, false, none⟩,
      ⟨2, ("a.mtf").data, some (("5").data), ("Left Arm").data, 2,
      ("ZAPGUN").data, some (("zapgun").data), ("weapon").data,
      none, none, false, none⟩,
      ⟨3, ("b.mtf").data, some (("6").data), ("Right Arm").data, 1,
      ("Zapgun").data, some (("zapgun").data), ("weapon").data,
      none, none, false, none⟩],
    nextId := 4}

/-- Fixture: one persisted mech with external id 5 and one resolved
weapon staging row pointing at it; finalization creates one Slot and one
WeaponInstance on the first run. -/
def c2Store : Store :=
  {emptyStore with
    mechs := [⟨1, ("Atlas").data, none, some 5, none, none, none, none,
               none, none, none⟩],
    weapons := [⟨9, ("large laser").data, none, none⟩],
    staging := [⟨2, ("a.mtf").data, some (("5").data), ("Left Arm").data, 1,
      ("Large Laser").data, some (("large laser").data), ("weapon").data,
      some 9, none, true, some (("exact").data)⟩],
    nextId := 10}

/-- Fixture: a parsed mech document with no `mul id` line. -/
def c10Doc : ParsedMech :=
  ⟨some (("Atlas").data), none, none, none, none, none, none, none, none,
   [], [], [((("Left Arm").data), [("Medium Laser").data])], [], [], [],
   [], none⟩

/-- The result of ingesting `c10Doc` into an empty store. -/
def c10Result : Store × Nat × List Nat :=
  (Mtf.ingest_parsed_mech emptyStore c10Doc (("a.mtf").data)
    .enqueue).toOption.getD (emptyStore, 0, [])

/-- A persisted mech row carrying external id 1 (C4 mech-side fixture). -/
def c4MechRow : MechRow :=
  ⟨5, ("Atlas").data, none, some 1, none, none, none, none, none, none,
   none⟩

/-- A persisted vehicle row carrying external id 2 (C4 vehicle-side
fixture). -/
def c4VehRow : VehicleRow :=
  ⟨7, ("Scorpion").data, none, some 2, none, none, none, none, none,
   none, none, none, none, none, none⟩

/-- A store already holding a unit of each pipeline, keyed by external
id. -/
def c4Store : Store :=
  {emptyStore with mechs := [c4MechRow], vehicles := [c4VehRow],
                   nextId := 10}

/-- A mech document whose external id collides with `c4MechRow`. -/
def c4MechDoc : ParsedMech :=
  ⟨some (("Atlas").data), none, some 1, none, none, none, none, none,
   none, [], [], [], [], [], [], [], none⟩

/-- A vehicle document whose external id matches `c4VehRow`. -/
def c4VehDoc : ParsedVehicle :=
  ⟨some (("Scorpion").data), none, some 2, none, none, none, none, none,
   none, none, none, none, none, [],
   [((("front").data), [("Machine Gun").data])], [], [], [], none⟩

/-- The result of re-ingesting `c4VehDoc` into `c4Store`. -/
def c4VehResult : Store × Nat × List Nat :=
  (Blk.ingest_parsed_vehicle c4Store c4VehDoc
    (("b.blk").data)).toOption.getD (emptyStore, 0, [])

/-- A mech document listing the same manufacturer twice: the second
association insert trips the one-association-per-pair primary key. -/
def c5Doc : ParsedMech :=
  ⟨some (("Atlas").data), none, some 3, none, none, none, none, none,
   none, [], [], [((("Left Arm").data), [("Medium Laser").data])], [],
   [("Acme").data, ("Acme").data], [], [], none⟩

/-- The result of ingesting `c5Doc` into an empty store. -/
def c5Result : Store × Nat × List Nat :=
  (Mtf.ingest_parsed_mech emptyStore c5Doc (("d.mtf").data)
    .skip).toOption.getD (emptyStore, 0, [])

/-- The content lines of the claim's armor block: six integers and one
non-numeric line. -/
def c9Block : List Str :=
  [("10").data, ("8").data, ("8").data, ("5").data, ("6").data,
   ("not a number").data, ("99").data]

/-- A vehicle document carrying the claim's armor block. -/
def c9Doc : ParsedVehicle :=
  ⟨some (("Tank").data), none, none, none, none, none, none, none,
   none, none, none, none, none, armorValues c9Block, [], [], [], [],
   none⟩

/-- The result of ingesting `c9Doc` into an empty store. -/
def c9Result : Store × Nat × List Nat :=
  (Blk.ingest_parsed_vehicle emptyStore c9Doc
    (("e.blk").data)).toOption.getD (emptyStore, 0, [])

/-! ### Character-level lemmas for the classifier -/

theorem startsWith_mem {n h : Str} (hs : startsWith n h = true) :
    ∀ c ∈ n, c ∈ h := by
  induction n generalizing h with
  | nil => intro c hc; cases hc
  | cons p ps ih =>
    cases h with
    | nil => simp [startsWith] at hs
    | cons x xs =>
      simp only [startsWith, Bool.and_eq_true, decide_eq_true_eq] at hs
      intro c hc
      rcases List.mem_cons.mp hc with rfl | hc
      · exact hs.1 ▸ List.mem_cons_self _ _
      · exact List.mem_cons_of_mem _ (ih hs.2 c hc)

theorem containsSub_mem {n h : Str} (hc : containsSub n h = true) :
    ∀ c ∈ n, c ∈ h := by
  rcases List.any_eq_true.mp hc with ⟨i, _, hi⟩
  intro c hcn
  exact List.mem_of_mem_drop (startsWith_mem hi c hcn)

theorem searchWord_mem {w t : Str} (hs : searchWord w t = true) :
    ∀ c ∈ w, c ∈ t := by
  rcases List.any_eq_true.mp hs with ⟨i, _, hi⟩
  simp only [hasWordAt, Bool.and_eq_true] at hi
  intro c hcw
  exact List.mem_of_mem_drop (startsWith_mem hi.1.1 c hcw)

theorem searchAnyWord_ex {ws : List Str} {t : Str}
    (hs : searchAnyWord ws t = true) : ∃ w ∈ ws, ∀ c ∈ w, c ∈ t := by
  rcases List.any_eq_true.mp hs with ⟨w, hw, hwt⟩
  exact ⟨w, hw, searchWord_mem hwt⟩

theorem mem_stripL_or_space {c : Char} {s : Str} (h : c ∈ s) :
    c ∈ stripL s ∨ isSpaceChar c = true := by
  have := List.takeWhile_append_dropWhile isSpaceChar s
  rw [← this] at h
  rcases List.mem_append.mp h with h | h
  · exact Or.inr (List.mem_takeWhile_imp h)
  · exact Or.inl h

theorem mem_strip_or_space {c : Char} {s : Str} (h : c ∈ s) :
    c ∈ strip s ∨ isSpaceChar c = true := by
  rcases mem_stripL_or_space h with h | h
  · have h' : c ∈ (stripL s).reverse := List.mem_reverse.mpr h
    rw [← List.takeWhile_append_dropWhile isSpaceChar (stripL s).reverse] at h'
    rcases List.mem_append.mp h' with h' | h'
    · exact Or.inr (List.mem_takeWhile_imp h')
    · exact Or.inl (List.mem_reverse.mpr h')
  · exact Or.inr h

theorem toLowerChar_space {c : Char} (h : isSpaceChar c = true) :
    toLowerChar c = c := by
  simp only [isSpaceChar, Bool.or_eq_true, decide_eq_true_eq] at h
  rcases h with ((((h | h) | h) | h) | h) | h <;> subst h <;> decide

/-- Every character of the ASCII-lowering of a string whose stripped
lowering is an empty-sentinel variant is whitespace or a sentinel
character. -/
theorem sentinel_chars {raw : Str} (h : memEmptyVariants raw = true) :
    ∀ d ∈ lowerStr raw, goodChar d = true := by
  rcases List.any_eq_true.mp h with ⟨v, hv, hveq⟩
  have hveq' : v = lowerStr (strip raw) := of_decide_eq_true hveq
  intro d hd
  rcases List.mem_map.mp hd with ⟨c, hc, rfl⟩
  rcases mem_strip_or_space hc with hc' | hc'
  · have hdv : toLowerChar c ∈ lowerStr (strip raw) :=
      List.mem_map_of_mem toLowerChar hc'
    rw [← hveq'] at hdv
    have hall : (EMPTY_TOKEN_VARIANTS.map lowerStr).all
        (fun w => w.all goodChar) = true := by decide
    have := List.all_eq_true.mp (List.all_eq_true.mp hall v hv) _ hdv
    exact this
  · rw [toLowerChar_space hc']
    simp [goodChar, hc']

theorem sentinel_not_contains {raw needle : Str}
    (h : memEmptyVariants raw = true)
    (hbad : needle.any (fun c => !goodChar c) = true) :
    containsSub needle (lowerStr raw) = false := by
  by_contra hcon
  rw [Bool.not_eq_false] at hcon
  rcases List.any_eq_true.mp hbad with ⟨c, hcmem, hcbad⟩
  have := sentinel_chars h c (containsSub_mem hcon c hcmem)
  rw [this] at hcbad
  exact absurd hcbad (by decide)

theorem sentinel_not_searchAny {raw : Str} {ws : List Str}
    (h : memEmptyVariants raw = true)
    (hbad : ws.all (fun w => w.any (fun c => !goodChar c)) = true) :
    searchAnyWord ws (lowerStr raw) = false := by
  by_contra hcon
  rw [Bool.not_eq_false] at hcon
  rcases searchAnyWord_ex hcon with ⟨w, hw, hsub⟩
  rcases List.any_eq_true.mp (List.all_eq_true.mp hbad w hw) with ⟨c, hcw, hcbad⟩
  have := sentinel_chars h c (hsub c hcw)
  rw [this] at hcbad
  exact absurd hcbad (by decide)

theorem sentinel_mtf_tests_false {raw : Str} (h : memEmptyVariants raw = true) :
    mtfAmmoTest (lowerStr raw) = false ∧ mtfWeaponTest (lowerStr raw) = false
    ∧ mtfComponentTest (lowerStr raw) = false := by
  refine ⟨?_, ?_, ?_⟩
  · simp only [mtfAmmoTest, Bool.or_eq_false_iff]
    exact ⟨sentinel_not_contains h (by decide),
           sentinel_not_searchAny h (by decide)⟩
  · exact sentinel_not_searchAny h (by decide)
  · simp only [mtfComponentTest]
    rw [← Bool.not_eq_true, List.any_eq_true]
    rintro ⟨k, hk, hcon⟩
    have hbad : mtfComponentSubstrings.all
        (fun w => w.any (fun c => !goodChar c)) = true := by decide
    rcases List.any_eq_true.mp (List.all_eq_true.mp hbad k hk) with ⟨c, hck, hcbad⟩
    have := sentinel_chars h c (containsSub_mem hcon c hck)
    rw [this] at hcbad
    exact absurd hcbad (by decide)

theorem sentinel_blk_tests_false {raw : Str} (h : memEmptyVariants raw = true) :
    blkAmmoTest (lowerStr raw) = false ∧ blkWeaponTest (lowerStr raw) = false
    ∧ blkComponentTest (lowerStr raw) = false := by
  refine ⟨?_, ?_, ?_⟩
  · simp only [blkAmmoTest, Bool.or_eq_false_iff]
    exact ⟨sentinel_not_contains h (by decide),
           sentinel_not_searchAny h (by decide)⟩
  · simp only [blkWeaponTest, Bool.or_eq_false_iff]
    exact ⟨sentinel_not_searchAny h (by decide),
           sentinel_not_searchAny h (by decide)⟩
  · simp only [blkComponentTest]
    rw [← Bool.not_eq_true, List.any_eq_true]
    rintro ⟨k, hk, hcon⟩
    have hbad : blkComponentSubstrings.all
        (fun w => w.any (fun c => !goodChar c)) = true := by decide
    rcases List.any_eq_true.mp (List.all_eq_true.mp hbad k hk) with ⟨c, hck, hcbad⟩
    have := sentinel_chars h c (containsSub_mem hcon c hck)
    rw [this] at hcbad
    exact absurd hcbad (by decide)

theorem mtf_guess_eq_specOrder (raw : Str) :
    Mtf.guess_parsed_type raw = classifierSpecOrderMtf raw := by
  by_cases h : memEmptyVariants raw = true
  · obtain ⟨h1, h2, h3⟩ := sentinel_mtf_tests_false h
    simp [Mtf.guess_parsed_type, classifierSpecOrderMtf, h, h1, h2, h3]
  · have h' : memEmptyVariants raw = false := by
      revert h; cases memEmptyVariants raw <;> simp
    simp [Mtf.guess_parsed_type, classifierSpecOrderMtf, h']

theorem blk_guess_eq_specOrder (raw : Str) :
    Blk.guess_parsed_type raw = classifierSpecOrderBlk raw := by
  by_cases h : memEmptyVariants raw = true
  · obtain ⟨h1, h2, h3⟩ := sentinel_blk_tests_false h
    simp [Blk.guess_parsed_type, classifierSpecOrderBlk, h, h1, h2, h3]
  · have h' : memEmptyVariants raw = false := by
      revert h; cases memEmptyVariants raw <;> simp
    simp [Blk.guess_parsed_type, classifierSpecOrderBlk, h']

theorem mtf_guess_mem (raw : Str) :
    Mtf.guess_parsed_type raw ∈
      [("weapon").data, ("ammo").data, ("component").data,
       ("empty").data, ("unknown").data] := by
  simp only [Mtf.guess_parsed_type]
  by_cases h1 : mtfAmmoTest (lowerStr raw) = true <;>
  by_cases h2 : mtfWeaponTest (lowerStr raw) = true <;>
  by_cases h3 : mtfComponentTest (lowerStr raw) = true <;>
  by_cases h4 : memEmptyVariants raw = true <;>
  simp [h1, h2, h3, h4]

theorem blk_guess_mem (raw : Str) :
    Blk.guess_parsed_type raw ∈
      [("weapon").data, ("ammo").data, ("component").data,
       ("empty").data, ("unknown").data] := by
  simp only [Blk.guess_parsed_type]
  by_cases h1 : blkAmmoTest (lowerStr raw) = true <;>
  by_cases h2 : blkWeaponTest (lowerStr raw) = true <;>
  by_cases h3 : blkComponentTest (lowerStr raw) = true <;>
  by_cases h4 : memEmptyVariants raw = true <;>
  simp [h1, h2, h3, h4]

/-- C3: each classifier is a function into the five categories weapon,
ammo, component, empty, unknown; a raw line that is an exact
case-insensitive member of the empty-sentinel set classifies as `empty`
regardless of the other vocabularies (for the configured sentinel set no
sentinel matches the ammo, weapon, or component vocabularies, so the
classifier agrees everywhere with the spec's rule order that applies the
empty-sentinel membership test first). -/
theorem c3_classifier_precedence (raw : Str) :
    (Mtf.guess_parsed_type raw ∈
      [("weapon").data, ("ammo").data, ("component").data,
       ("empty").data, ("unknown").data])
    ∧ (Blk.guess_parsed_type raw ∈
      [("weapon").data, ("ammo").data, ("component").data,
       ("empty").data, ("unknown").data])
    ∧ Mtf.guess_parsed_type raw = classifierSpecOrderMtf raw
    ∧ Blk.guess_parsed_type raw = classifierSpecOrderBlk raw
    ∧ (memEmptyVariants raw = true →
        Mtf.guess_parsed_type raw = ("empty").data
        ∧ Blk.guess_parsed_type raw = ("empty").data) := by
  refine ⟨mtf_guess_mem raw, blk_guess_mem raw, mtf_guess_eq_specOrder raw,
    blk_guess_eq_specOrder raw, fun h => ⟨?_, ?_⟩⟩
  · rw [mtf_guess_eq_specOrder raw]
    simp [classifierSpecOrderMtf, h]
  · rw [blk_guess_eq_specOrder raw]
    simp [classifierSpecOrderBlk, h]

/-- Witness for C3 at the concrete sentinel line `"- EMPTY -"` (the line of
the spec's §8 scenario). -/
theorem c3_classifier_precedence_witness :
    memEmptyVariants (("- EMPTY -").data) = true
    ∧ Mtf.guess_parsed_type (("- EMPTY -").data) = ("empty").data
    ∧ Blk.guess_parsed_type (("- EMPTY -").data) = ("empty").data := by
  refine ⟨by decide, ?_⟩
  exact (c3_classifier_precedence (("- EMPTY -").data)).2.2.2.2 (by decide)


/-! ### Resolution idempotence (C1) -/

theorem mapCount_fst (f : α → α × Nat) (l : List α) :
    (mapCount f l).1 = l.map (fun x => (f x).1) := by
  induction l with
  | nil => rfl
  | cons x xs ih => simp [mapCount, ih]

theorem mapCount_eq_self {f : α → α × Nat} {l : List α}
    (h : ∀ x ∈ l, f x = (x, 0)) : mapCount f l = (l, 0) := by
  induction l with
  | nil => rfl
  | cons x xs ih =>
    simp only [mapCount, h x (List.mem_cons_self x xs),
      ih (fun y hy => h y (List.mem_cons_of_mem x hy))]

theorem weaponStep_of_not {W : List WeaponRow} {A : List WeaponAliasRow}
    {s : StagingSlotRow}
    (h : ¬(s.parsed_type = ("weapon").data ∧ s.parsed_name.isSome)) :
    weaponStep W A s = (s, 0) := by
  simp [weaponStep, h]

theorem weaponStep_of_skip {W : List WeaponRow} {A : List WeaponAliasRow}
    {s : StagingSlotRow} (h2 : (s.resolved && truthyNat s.weapon_id) = true) :
    weaponStep W A s = (s, 0) := by
  unfold weaponStep
  split
  · simp [h2]
  · rfl

theorem componentStep_of_not {s : StagingSlotRow}
    (h : ¬(s.parsed_type = ("component").data ∧ s.component_type_id.isSome
           ∧ s.resolved = false)) :
    componentStep s = (s, 0) := by
  simp [componentStep, h]

theorem emptyStep_of_not {s : StagingSlotRow}
    (h : ¬(s.parsed_type = ("empty").data ∧ s.resolved = false)) :
    emptyStep s = (s, 0) := by
  simp [emptyStep, h]

theorem weaponStep_fields (W : List WeaponRow) (A : List WeaponAliasRow)
    (s : StagingSlotRow) :
    (weaponStep W A s).1.parsed_type = s.parsed_type
    ∧ (weaponStep W A s).1.parsed_name = s.parsed_name
    ∧ (weaponStep W A s).1.component_type_id = s.component_type_id
    ∧ (weaponStep W A s).1.id = s.id := by
  unfold weaponStep
  split
  · split
    · exact ⟨rfl, rfl, rfl, rfl⟩
    · split
      · exact ⟨rfl, rfl, rfl, rfl⟩
      · split
        · exact ⟨rfl, rfl, rfl, rfl⟩
        · split
          · exact ⟨rfl, rfl, rfl, rfl⟩
          · exact ⟨rfl, rfl, rfl, rfl⟩
  · exact ⟨rfl, rfl, rfl, rfl⟩

theorem componentStep_fields (s : StagingSlotRow) :
    (componentStep s).1.parsed_type = s.parsed_type
    ∧ (componentStep s).1.parsed_name = s.parsed_name
    ∧ (componentStep s).1.component_type_id = s.component_type_id
    ∧ (componentStep s).1.weapon_id = s.weapon_id
    ∧ (componentStep s).1.id = s.id := by
  unfold componentStep
  split
  · exact ⟨rfl, rfl, rfl, rfl, rfl⟩
  · exact ⟨rfl, rfl, rfl, rfl, rfl⟩

theorem emptyStep_fields (s : StagingSlotRow) :
    (emptyStep s).1.parsed_type = s.parsed_type
    ∧ (emptyStep s).1.parsed_name = s.parsed_name
    ∧ (emptyStep s).1.component_type_id = s.component_type_id
    ∧ (emptyStep s).1.weapon_id = s.weapon_id
    ∧ (emptyStep s).1.id = s.id := by
  unfold emptyStep
  split
  · exact ⟨rfl, rfl, rfl, rfl, rfl⟩
  · exact ⟨rfl, rfl, rfl, rfl, rfl⟩

theorem componentStep_of_weapon {s : StagingSlotRow}
    (h : s.parsed_type = ("weapon").data) : componentStep s = (s, 0) := by
  refine componentStep_of_not ?_
  rintro ⟨hc, -, -⟩
  rw [h] at hc
  exact absurd hc (by decide)

theorem emptyStep_of_weapon {s : StagingSlotRow}
    (h : s.parsed_type = ("weapon").data) : emptyStep s = (s, 0) := by
  refine emptyStep_of_not ?_
  rintro ⟨hc, -⟩
  rw [h] at hc
  exact absurd hc (by decide)

/-- After a full first pass over a row, every phase of a second pass with
the same catalog leaves the row untouched and reports zero updates. -/
theorem passRow_stable {W : List WeaponRow} {A : List WeaponAliasRow}
    (hW : ∀ w ∈ W, w.id ≠ 0) (hA : ∀ a ∈ A, truthyNat a.weapon_id = true)
    (s : StagingSlotRow) :
    weaponStep W A (passRow W A s) = (passRow W A s, 0)
    ∧ componentStep (passRow W A s) = (passRow W A s, 0)
    ∧ emptyStep (passRow W A s) = (passRow W A s, 0) := by
  by_cases hty : s.parsed_type = ("weapon").data ∧ s.parsed_name.isSome
  · -- a weapon-typed row with a token: only the weapon phase can touch it
    have hwty : (weaponStep W A s).1.parsed_type = ("weapon").data :=
      (weaponStep_fields W A s).1.trans hty.1
    have hcw1 : (componentStep (weaponStep W A s).1).1 = (weaponStep W A s).1 := by
      rw [componentStep_of_weapon hwty]
    have hpass : passRow W A s = (weaponStep W A s).1 := by
      unfold passRow
      rw [hcw1, emptyStep_of_weapon hwty]
    have htyp : (passRow W A s).parsed_type = ("weapon").data := by
      rw [hpass]; exact hwty
    refine ⟨?_, componentStep_of_weapon htyp, emptyStep_of_weapon htyp⟩
    obtain ⟨pn, hpn⟩ := Option.isSome_iff_exists.mp hty.2
    by_cases hskip : (s.resolved && truthyNat s.weapon_id) = true
    · have hws : weaponStep W A s = (s, 0) := weaponStep_of_skip hskip
      rw [hpass, hws]
      exact weaponStep_of_skip hskip
    · rw [hpass]
      have hw : weaponStep W A s =
          (match W.find? (fun w => w.name = pn) with
           | some w =>
             ({s with weapon_id := some w.id, resolved := true,
                      resolution_hint := some (("exact").data)}, 1)
           | none =>
             match A.find? (fun a => a.«alias» = pn) with
             | some a =>
               ({s with weapon_id := a.weapon_id, resolved := true,
                        resolution_hint := some (("alias").data)}, 1)
             | none => (s, 0)) := by
        unfold weaponStep
        rw [if_pos hty, if_neg hskip, hpn]
      cases hfw : W.find? (fun w => w.name = pn) with
      | some w =>
        rw [hw, hfw]
        refine weaponStep_of_skip ?_
        have : w.id ≠ 0 := hW w (List.mem_of_find?_eq_some hfw)
        simp [truthyNat, this]
      | none =>
        cases hfa : A.find? (fun a => a.«alias» = pn) with
        | some a =>
          rw [hw, hfw, hfa]
          refine weaponStep_of_skip ?_
          have := hA a (List.mem_of_find?_eq_some hfa)
          simp only [Bool.and_eq_true]
          exact ⟨trivial, this⟩
        | none =>
          have hws : weaponStep W A s = (s, 0) := by
            rw [hw, hfw, hfa]
          have h1 : (weaponStep W A s).1 = s := by rw [hws]
          rw [h1, hws]
  · -- the weapon phase never touches this row
    have hws1 : (weaponStep W A s).1 = s :=
      congrArg Prod.fst (weaponStep_of_not hty)
    have hpass : passRow W A s = (emptyStep (componentStep s).1).1 := by
      unfold passRow; rw [hws1]
    have hty2 : ¬((passRow W A s).parsed_type = ("weapon").data
        ∧ (passRow W A s).parsed_name.isSome) := by
      rw [hpass]
      rw [(emptyStep_fields (componentStep s).1).1, (componentStep_fields s).1,
          (emptyStep_fields (componentStep s).1).2.1, (componentStep_fields s).2.1]
      exact hty
    refine ⟨weaponStep_of_not hty2, ?_, ?_⟩
    · -- second component phase
      by_cases hc : s.parsed_type = ("component").data
          ∧ s.component_type_id.isSome ∧ s.resolved = false
      · have hcs : componentStep s =
            ({s with resolved := true,
                     resolution_hint := some (("component").data)}, 1) := by
          simp [componentStep, hc]
        have hcs1 : (componentStep s).1 =
            {s with resolved := true,
                    resolution_hint := some (("component").data)} := by
          rw [hcs]
        have hes1 : (emptyStep (componentStep s).1).1 = (componentStep s).1 := by
          rw [emptyStep_of_not ?_]
          rw [hcs1]
          rintro ⟨hty3, -⟩
          simp only at hty3
          rw [hc.1] at hty3
          exact absurd hty3 (by decide)
        have hpr : passRow W A s =
            {s with resolved := true,
                    resolution_hint := some (("component").data)} := by
          rw [hpass, hes1, hcs1]
        rw [hpr]
        exact componentStep_of_not (by simp)
      · have hcs1 : (componentStep s).1 = s := by
          rw [componentStep_of_not hc]
        refine componentStep_of_not ?_
        rw [hpass, hcs1]
        rintro ⟨h1, h2, h3⟩
        rw [(emptyStep_fields s).1] at h1
        rw [(emptyStep_fields s).2.2.1] at h2
        refine hc ⟨h1, h2, ?_⟩
        by_cases hr : s.resolved = false
        · exact hr
        · exfalso
          have hse1 : (emptyStep s).1 = s := by
            rw [emptyStep_of_not ?_]
            rintro ⟨hty4, -⟩
            rw [h1] at hty4
            exact absurd hty4 (by decide)
          rw [hse1] at h3
          exact hr h3
    · -- second empty phase
      by_cases he : s.parsed_type = ("empty").data ∧ s.resolved = false
      · have hcs1 : (componentStep s).1 = s := by
          rw [componentStep_of_not ?_]
          rintro ⟨h3, -, -⟩
          rw [he.1] at h3
          exact absurd h3 (by decide)
        have hes : emptyStep s =
            ({s with resolved := true,
                     resolution_hint := some (("empty").data)}, 1) := by
          simp [emptyStep, he]
        have hpr : passRow W A s =
            {s with resolved := true,
                    resolution_hint := some (("empty").data)} := by
          rw [hpass, hcs1, hes]
        rw [hpr]
        exact emptyStep_of_not (by simp)
      · refine emptyStep_of_not ?_
        rw [hpass]
        rintro ⟨h1, h2⟩
        rw [(emptyStep_fields (componentStep s).1).1,
            (componentStep_fields s).1] at h1
        have hcs1 : (componentStep s).1 = s := by
          rw [componentStep_of_not ?_]
          rintro ⟨h3, -, -⟩
          rw [h1] at h3
          exact absurd h3 (by decide)
        rw [hcs1] at h2
        by_cases hr : s.resolved = false
        · exact he ⟨h1, hr⟩
        · have hes1 : (emptyStep s).1 = s := by
            rw [emptyStep_of_not (fun hcon => hr hcon.2)]
          rw [hes1] at h2
          exact hr h2

theorem resolve_staging_upd (σ : Store) :
    (Mtf.resolve_staging σ).2.1 =
      (mapCount (weaponStep σ.weapons σ.aliases) σ.staging).2
      + (mapCount componentStep
          (mapCount (weaponStep σ.weapons σ.aliases) σ.staging).1).2
      + (mapCount emptyStep (mapCount componentStep
          (mapCount (weaponStep σ.weapons σ.aliases) σ.staging).1).1).2 :=
  rfl

theorem resolve_staging_staging_eq (σ : Store) :
    (Mtf.resolve_staging σ).1.staging =
      σ.staging.map (passRow σ.weapons σ.aliases) := by
  show (mapCount emptyStep (mapCount componentStep
    (mapCount (weaponStep σ.weapons σ.aliases) σ.staging).1).1).1 = _
  rw [mapCount_fst, mapCount_fst, mapCount_fst, List.map_map, List.map_map]
  rfl

theorem mapCount_chain_zero {W : List WeaponRow} {A : List WeaponAliasRow}
    (hW : ∀ w ∈ W, w.id ≠ 0) (hA : ∀ a ∈ A, truthyNat a.weapon_id = true)
    (l : List StagingSlotRow) :
    (mapCount (weaponStep W A) (l.map (passRow W A))).2
    + (mapCount componentStep
        (mapCount (weaponStep W A) (l.map (passRow W A))).1).2
    + (mapCount emptyStep (mapCount componentStep
        (mapCount (weaponStep W A) (l.map (passRow W A))).1).1).2 = 0 := by
  have hmem : ∀ x ∈ l.map (passRow W A),
      weaponStep W A x = (x, 0) ∧ componentStep x = (x, 0)
      ∧ emptyStep x = (x, 0) := by
    intro x hx
    rcases List.mem_map.mp hx with ⟨y, _, rfl⟩
    exact passRow_stable hW hA y
  have h1 : mapCount (weaponStep W A) (l.map (passRow W A)) =
      (l.map (passRow W A), 0) :=
    mapCount_eq_self (fun x hx => (hmem x hx).1)
  have h2 : mapCount componentStep (l.map (passRow W A)) =
      (l.map (passRow W A), 0) :=
    mapCount_eq_self (fun x hx => (hmem x hx).2.1)
  have h3 : mapCount emptyStep (l.map (passRow W A)) =
      (l.map (passRow W A), 0) :=
    mapCount_eq_self (fun x hx => (hmem x hx).2.2)
  simp [h1, h2, h3]

theorem vehicleWeaponStep_of_not {W : List WeaponRow}
    {A : List WeaponAliasRow} {s : StagingVehicleSlotRow}
    (h : ¬(s.parsed_type = ("weapon").data ∧ s.parsed_name.isSome)) :
    vehicleWeaponStep W A s = (s, 0) := by
  simp [vehicleWeaponStep, h]

theorem vehicleWeaponStep_of_skip {W : List WeaponRow}
    {A : List WeaponAliasRow} {s : StagingVehicleSlotRow}
    (h2 : (s.resolved && truthyNat s.weapon_id) = true) :
    vehicleWeaponStep W A s = (s, 0) := by
  unfold vehicleWeaponStep
  split
  · simp [h2]
  · rfl

theorem vehicleWeaponStep_fields (W : List WeaponRow)
    (A : List WeaponAliasRow) (s : StagingVehicleSlotRow) :
    (vehicleWeaponStep W A s).1.parsed_type = s.parsed_type
    ∧ (vehicleWeaponStep W A s).1.parsed_name = s.parsed_name := by
  unfold vehicleWeaponStep
  split
  · split
    · exact ⟨rfl, rfl⟩
    · split
      · exact ⟨rfl, rfl⟩
      · split
        · exact ⟨rfl, rfl⟩
        · split
          · exact ⟨rfl, rfl⟩
          · exact ⟨rfl, rfl⟩
  · exact ⟨rfl, rfl⟩

theorem vehicleWeaponStep_stable {W : List WeaponRow}
    {A : List WeaponAliasRow} (hW : ∀ w ∈ W, w.id ≠ 0)
    (hA : ∀ a ∈ A, truthyNat a.weapon_id = true)
    (s : StagingVehicleSlotRow) :
    vehicleWeaponStep W A ((vehicleWeaponStep W A s).1) =
      ((vehicleWeaponStep W A s).1, 0) := by
  by_cases hty : s.parsed_type = ("weapon").data ∧ s.parsed_name.isSome
  · obtain ⟨pn, hpn⟩ := Option.isSome_iff_exists.mp hty.2
    by_cases hskip : (s.resolved && truthyNat s.weapon_id) = true
    · have hws : vehicleWeaponStep W A s = (s, 0) :=
        vehicleWeaponStep_of_skip hskip
      rw [hws]
      exact vehicleWeaponStep_of_skip hskip
    · have hw : vehicleWeaponStep W A s =
          (match W.find? (fun w => w.name = pn) with
           | some w =>
             ({s with weapon_id := some w.id, resolved := true,
                      resolution_hint := some (("exact").data)}, 1)
           | none =>
             match A.find? (fun a => a.«alias» = pn) with
             | some a =>
               ({s with weapon_id := a.weapon_id, resolved := true,
                        resolution_hint := some (("alias").data)}, 1)
             | none => (s, 0)) := by
        unfold vehicleWeaponStep
        rw [if_pos hty, if_neg hskip, hpn]
      cases hfw : W.find? (fun w => w.name = pn) with
      | some w =>
        rw [hw, hfw]
        refine vehicleWeaponStep_of_skip ?_
        have : w.id ≠ 0 := hW w (List.mem_of_find?_eq_some hfw)
        simp [truthyNat, this]
      | none =>
        cases hfa : A.find? (fun a => a.«alias» = pn) with
        | some a =>
          rw [hw, hfw, hfa]
          refine vehicleWeaponStep_of_skip ?_
          have := hA a (List.mem_of_find?_eq_some hfa)
          simp only [Bool.and_eq_true]
          exact ⟨trivial, this⟩
        | none =>
          have hws : vehicleWeaponStep W A s = (s, 0) := by
            rw [hw, hfw, hfa]
          rw [hws]
          exact hws
  · have hws : vehicleWeaponStep W A s = (s, 0) :=
      vehicleWeaponStep_of_not hty
    rw [hws]
    exact hws

theorem resolve_vehicle_upd (σ : Store) :
    (Blk.resolve_vehicle_staging σ).2.1 =
      (mapCount (vehicleWeaponStep σ.weapons σ.aliases)
        σ.vehicle_staging).2 := rfl

theorem resolve_vehicle_staging_eq (σ : Store) :
    (Blk.resolve_vehicle_staging σ).1.vehicle_staging =
      σ.vehicle_staging.map
        (fun s => (vehicleWeaponStep σ.weapons σ.aliases s).1) := by
  show (mapCount (vehicleWeaponStep σ.weapons σ.aliases)
    σ.vehicle_staging).1 = _
  rw [mapCount_fst]

/-- C1: with an unchanged, well-formed weapon/alias catalog, a second
resolution pass immediately after a first reports zero newly-resolved
rows, in both the mech pipeline (`resolve_staging`) and the vehicle
pipeline (`resolve_vehicle_staging`). -/
theorem c1_resolution_idempotent (σ : Store) (h : CatalogWF σ) :
    (Mtf.resolve_staging (Mtf.resolve_staging σ).1).2.1 = 0
    ∧ (Blk.resolve_vehicle_staging
        (Blk.resolve_vehicle_staging σ).1).2.1 = 0 := by
  obtain ⟨hW, hA⟩ := h
  constructor
  · rw [resolve_staging_upd]
    have hw1 : (Mtf.resolve_staging σ).1.weapons = σ.weapons := rfl
    have ha1 : (Mtf.resolve_staging σ).1.aliases = σ.aliases := rfl
    rw [hw1, ha1, resolve_staging_staging_eq σ]
    exact mapCount_chain_zero hW hA σ.staging
  · rw [resolve_vehicle_upd]
    have hw1 : (Blk.resolve_vehicle_staging σ).1.weapons = σ.weapons := rfl
    have ha1 : (Blk.resolve_vehicle_staging σ).1.aliases = σ.aliases := rfl
    rw [hw1, ha1, resolve_vehicle_staging_eq σ]
    have : mapCount (vehicleWeaponStep σ.weapons σ.aliases)
        (σ.vehicle_staging.map
          (fun s => (vehicleWeaponStep σ.weapons σ.aliases s).1)) =
        (σ.vehicle_staging.map
          (fun s => (vehicleWeaponStep σ.weapons σ.aliases s).1), 0) := by
      refine mapCount_eq_self ?_
      intro x hx
      rcases List.mem_map.mp hx with ⟨y, _, rfl⟩
      exact vehicleWeaponStep_stable hW hA y
    rw [this]

/-- Witness for C1: on the concrete fixture the first pass resolves one
row per pipeline and the second pass resolves zero. -/
theorem c1_resolution_idempotent_witness :
    CatalogWF c1Store
    ∧ (Mtf.resolve_staging c1Store).2.1 = 1
    ∧ (Blk.resolve_vehicle_staging c1Store).2.1 = 1
    ∧ (Mtf.resolve_staging (Mtf.resolve_staging c1Store).1).2.1 = 0
    ∧ (Blk.resolve_vehicle_staging
        (Blk.resolve_vehicle_staging c1Store).1).2.1 = 0 := by
  have hcwf : CatalogWF c1Store := ⟨by decide, by decide⟩
  exact ⟨hcwf, by decide, by decide,
    (c1_resolution_idempotent c1Store hcwf).1,
    (c1_resolution_idempotent c1Store hcwf).2⟩

/-! ### Exact-before-alias matching (C6) -/

theorem weaponStep_exact {W : List WeaponRow} {A : List WeaponAliasRow}
    {s : StagingSlotRow} {tok : Str} {w0 : WeaponRow}
    (hty : s.parsed_type = ("weapon").data)
    (hname : s.parsed_name = some tok)
    (hskip : (s.resolved && truthyNat s.weapon_id) = false)
    (hfind : W.find? (fun w => w.name = tok) = some w0) :
    weaponStep W A s =
      ({s with weapon_id := some w0.id, resolved := true,
               resolution_hint := some (("exact").data)}, 1) := by
  unfold weaponStep
  rw [if_pos ⟨hty, by rw [hname]; rfl⟩, if_neg (by rw [hskip]; decide),
      hname]
  simp only [hfind]

theorem weaponStep_alias {W : List WeaponRow} {A : List WeaponAliasRow}
    {s : StagingSlotRow} {tok : Str} {a0 : WeaponAliasRow}
    (hty : s.parsed_type = ("weapon").data)
    (hname : s.parsed_name = some tok)
    (hskip : (s.resolved && truthyNat s.weapon_id) = false)
    (hfw : W.find? (fun w => w.name = tok) = none)
    (hfa : A.find? (fun a => a.«alias» = tok) = some a0) :
    weaponStep W A s =
      ({s with weapon_id := a0.weapon_id, resolved := true,
               resolution_hint := some (("alias").data)}, 1) := by
  unfold weaponStep
  rw [if_pos ⟨hty, by rw [hname]; rfl⟩, if_neg (by rw [hskip]; decide),
      hname]
  simp only [hfw, hfa]

theorem vehicleWeaponStep_exact {W : List WeaponRow}
    {A : List WeaponAliasRow} {s : StagingVehicleSlotRow} {tok : Str}
    {w0 : WeaponRow}
    (hty : s.parsed_type = ("weapon").data)
    (hname : s.parsed_name = some tok)
    (hskip : (s.resolved && truthyNat s.weapon_id) = false)
    (hfind : W.find? (fun w => w.name = tok) = some w0) :
    vehicleWeaponStep W A s =
      ({s with weapon_id := some w0.id, resolved := true,
               resolution_hint := some (("exact").data)}, 1) := by
  unfold vehicleWeaponStep
  rw [if_pos ⟨hty, by rw [hname]; rfl⟩, if_neg (by rw [hskip]; decide),
      hname]
  simp only [hfind]

theorem vehicleWeaponStep_alias {W : List WeaponRow}
    {A : List WeaponAliasRow} {s : StagingVehicleSlotRow} {tok : Str}
    {a0 : WeaponAliasRow}
    (hty : s.parsed_type = ("weapon").data)
    (hname : s.parsed_name = some tok)
    (hskip : (s.resolved && truthyNat s.weapon_id) = false)
    (hfw : W.find? (fun w => w.name = tok) = none)
    (hfa : A.find? (fun a => a.«alias» = tok) = some a0) :
    vehicleWeaponStep W A s =
      ({s with weapon_id := a0.weapon_id, resolved := true,
               resolution_hint := some (("alias").data)}, 1) := by
  unfold vehicleWeaponStep
  rw [if_pos ⟨hty, by rw [hname]; rfl⟩, if_neg (by rw [hskip]; decide),
      hname]
  simp only [hfw, hfa]

theorem passRow_of_weapon {W : List WeaponRow} {A : List WeaponAliasRow}
    {s : StagingSlotRow} (hty : s.parsed_type = ("weapon").data) :
    passRow W A s = (weaponStep W A s).1 := by
  have hwty : (weaponStep W A s).1.parsed_type = ("weapon").data :=
    (weaponStep_fields W A s).1.trans hty
  have hcw1 : (componentStep (weaponStep W A s).1).1 =
      (weaponStep W A s).1 := by
    rw [componentStep_of_weapon hwty]
  unfold passRow
  rw [hcw1, emptyStep_of_weapon hwty]

/-- C6: when a staging row's token equals both a canonical weapon name
and a weapon alias, one resolution pass links it to the exact name match
with hint `exact`, never to the alias target; the alias branch fires
only when the exact lookup misses, in both pipelines. -/
theorem c6_exact_over_alias (σ : Store) (r : StagingSlotRow)
    (rv : StagingVehicleSlotRow) (tok : Str) :
    (r ∈ σ.staging → r.parsed_type = ("weapon").data →
     r.parsed_name = some tok →
     (r.resolved && truthyNat r.weapon_id) = false →
     (∃ a ∈ σ.aliases, a.«alias» = tok) →
     ∀ w0, σ.weapons.find? (fun w => w.name = tok) = some w0 →
     ∃ r2 ∈ (Mtf.resolve_staging σ).1.staging, r2.id = r.id
       ∧ r2.resolved = true
       ∧ r2.resolution_hint = some (("exact").data)
       ∧ r2.weapon_id = some w0.id)
    ∧ (r ∈ σ.staging → r.parsed_type = ("weapon").data →
     r.parsed_name = some tok →
     (r.resolved && truthyNat r.weapon_id) = false →
     σ.weapons.find? (fun w => w.name = tok) = none →
     ∀ a0, σ.aliases.find? (fun a => a.«alias» = tok) = some a0 →
     ∃ r2 ∈ (Mtf.resolve_staging σ).1.staging, r2.id = r.id
       ∧ r2.resolved = true
       ∧ r2.resolution_hint = some (("alias").data)
       ∧ r2.weapon_id = a0.weapon_id)
    ∧ (rv ∈ σ.vehicle_staging → rv.parsed_type = ("weapon").data →
     rv.parsed_name = some tok →
     (rv.resolved && truthyNat rv.weapon_id) = false →
     (∃ a ∈ σ.aliases, a.«alias» = tok) →
     ∀ w0, σ.weapons.find? (fun w => w.name = tok) = some w0 →
     ∃ r2 ∈ (Blk.resolve_vehicle_staging σ).1.vehicle_staging,
       r2.id = rv.id ∧ r2.resolved = true
       ∧ r2.resolution_hint = some (("exact").data)
       ∧ r2.weapon_id = some w0.id)
    ∧ (rv ∈ σ.vehicle_staging → rv.parsed_type = ("weapon").data →
     rv.parsed_name = some tok →
     (rv.resolved && truthyNat rv.weapon_id) = false →
     σ.weapons.find? (fun w => w.name = tok) = none →
     ∀ a0, σ.aliases.find? (fun a => a.«alias» = tok) = some a0 →
     ∃ r2 ∈ (Blk.resolve_vehicle_staging σ).1.vehicle_staging,
       r2.id = rv.id ∧ r2.resolved = true
       ∧ r2.resolution_hint = some (("alias").data)
       ∧ r2.weapon_id = a0.weapon_id) := by
  refine ⟨?_, ?_, ?_, ?_⟩
  · intro hmem hty hname hskip _ w0 hfind
    refine ⟨passRow σ.weapons σ.aliases r, ?_, ?_⟩
    · rw [resolve_staging_staging_eq σ]
      exact List.mem_map_of_mem _ hmem
    · rw [passRow_of_weapon hty, weaponStep_exact hty hname hskip hfind]
      exact ⟨rfl, rfl, rfl, rfl⟩
  · intro hmem hty hname hskip hfw a0 hfa
    refine ⟨passRow σ.weapons σ.aliases r, ?_, ?_⟩
    · rw [resolve_staging_staging_eq σ]
      exact List.mem_map_of_mem _ hmem
    · rw [passRow_of_weapon hty,
          weaponStep_alias hty hname hskip hfw hfa]
      exact ⟨rfl, rfl, rfl, rfl⟩
  · intro hmem hty hname hskip _ w0 hfind
    refine ⟨(vehicleWeaponStep σ.weapons σ.aliases rv).1, ?_, ?_⟩
    · rw [resolve_vehicle_staging_eq σ]
      exact List.mem_map_of_mem _ hmem
    · rw [vehicleWeaponStep_exact hty hname hskip hfind]
      exact ⟨rfl, rfl, rfl, rfl⟩
  · intro hmem hty hname hskip hfw a0 hfa
    refine ⟨(vehicleWeaponStep σ.weapons σ.aliases rv).1, ?_, ?_⟩
    · rw [resolve_vehicle_staging_eq σ]
      exact List.mem_map_of_mem _ hmem
    · rw [vehicleWeaponStep_alias hty hname hskip hfw hfa]
      exact ⟨rfl, rfl, rfl, rfl⟩

/-- Witness for C6 at the concrete fixture: the token `large laser` is
both the name of weapon 1 and an alias for weapon 2; both pipelines
resolve the row to weapon 1 with hint `exact`. -/
theorem c6_exact_over_alias_witness :
    (∃ r2 ∈ (Mtf.resolve_staging c6Store).1.staging,
      r2.id = 3 ∧ r2.resolved = true
      ∧ r2.resolution_hint = some (("exact").data)
      ∧ r2.weapon_id = some 1)
    ∧ (∃ r2 ∈ (Blk.resolve_vehicle_staging c6Store).1.vehicle_staging,
      r2.id = 4 ∧ r2.resolved = true
      ∧ r2.resolution_hint = some (("exact").data)
      ∧ r2.weapon_id = some 1) := by
  have h := c6_exact_over_alias c6Store
    (⟨3, ("a.mtf").data, some (("5").data), ("Left Arm").data, 1,
      ("Large Laser").data, some (("large laser").data), ("weapon").data,
      none, none, false, none⟩)
    (⟨4, ("a.blk").data, some (("7").data), ("Front").data, 1,
      ("Large Laser").data, some (("large laser").data), ("weapon").data,
      none, false, none⟩)
    (("large laser").data)
  constructor
  · exact h.1 (by decide) rfl rfl rfl
      ⟨⟨("large laser").data, some 2⟩, by decide, rfl⟩
      ⟨1, ("large laser").data, none, none⟩ (by decide)
  · exact h.2.2.1 (by decide) rfl rfl rfl
      ⟨⟨("large laser").data, some 2⟩, by decide, rfl⟩
      ⟨1, ("large laser").data, none, none⟩ (by decide)

/-! ### Auto-resolution of component and empty rows (C7) -/

theorem weaponStep_of_type_ne {W : List WeaponRow}
    {A : List WeaponAliasRow} {s : StagingSlotRow}
    (h : s.parsed_type ≠ ("weapon").data) : weaponStep W A s = (s, 0) :=
  weaponStep_of_not (fun hc => h hc.1)

/-- The claim is false for the vehicle pipeline (see the counterexample):
`resolve_vehicle_staging` has no auto-resolution at all.  Amended: in the
mech pipeline one pass leaves every component-typed row with a
component-type id resolved (with hint `component` when it was not already
resolved) and every empty-typed row resolved (with hint `empty`
likewise), while the vehicle pass returns every non-weapon row
completely unchanged. -/
theorem c7_auto_resolution_amended (σ : Store) :
    (∀ r ∈ σ.staging, r.parsed_type = ("component").data →
      r.component_type_id.isSome →
      ∃ r2 ∈ (Mtf.resolve_staging σ).1.staging, r2.id = r.id
        ∧ r2.resolved = true
        ∧ (r.resolved = false →
            r2.resolution_hint = some (("component").data)))
    ∧ (∀ r ∈ σ.staging, r.parsed_type = ("empty").data →
      ∃ r2 ∈ (Mtf.resolve_staging σ).1.staging, r2.id = r.id
        ∧ r2.resolved = true
        ∧ (r.resolved = false →
            r2.resolution_hint = some (("empty").data)))
    ∧ (∀ r ∈ σ.vehicle_staging, r.parsed_type ≠ ("weapon").data →
        r ∈ (Blk.resolve_vehicle_staging σ).1.vehicle_staging) := by
  refine ⟨?_, ?_, ?_⟩
  · intro r hmem hty hcid
    refine ⟨passRow σ.weapons σ.aliases r, ?_, ?_⟩
    · rw [resolve_staging_staging_eq σ]
      exact List.mem_map_of_mem _ hmem
    · have hws1 : (weaponStep σ.weapons σ.aliases r).1 = r := by
        rw [weaponStep_of_type_ne (by rw [hty]; decide)]
      have hpass : passRow σ.weapons σ.aliases r =
          (emptyStep (componentStep r).1).1 := by
        unfold passRow; rw [hws1]
      by_cases hr : r.resolved = false
      · have hcs : componentStep r =
            ({r with resolved := true,
                     resolution_hint := some (("component").data)}, 1) := by
          simp [componentStep, hty, hcid, hr]
        have hcs1 : (componentStep r).1 =
            {r with resolved := true,
                    resolution_hint := some (("component").data)} := by
          rw [hcs]
        have hes1 : (emptyStep (componentStep r).1).1 = (componentStep r).1 := by
          rw [emptyStep_of_not ?_]
          rw [hcs1]
          rintro ⟨h1, -⟩
          simp only at h1
          rw [hty] at h1
          exact absurd h1 (by decide)
        rw [hpass, hes1, hcs1]
        exact ⟨rfl, rfl, fun _ => rfl⟩
      · have hcs1 : (componentStep r).1 = r := by
          rw [componentStep_of_not (fun hc => hr hc.2.2)]
        have hes1 : (emptyStep r).1 = r := by
          rw [emptyStep_of_not ?_]
          rintro ⟨h1, -⟩
          rw [hty] at h1
          exact absurd h1 (by decide)
        rw [hpass, hcs1, hes1]
        refine ⟨rfl, ?_, fun hcon => absurd hcon hr⟩
        cases hb : r.resolved with
        | true => rfl
        | false => exact absurd hb hr
  · intro r hmem hty
    refine ⟨passRow σ.weapons σ.aliases r, ?_, ?_⟩
    · rw [resolve_staging_staging_eq σ]
      exact List.mem_map_of_mem _ hmem
    · have hws1 : (weaponStep σ.weapons σ.aliases r).1 = r := by
        rw [weaponStep_of_type_ne (by rw [hty]; decide)]
      have hcs1 : (componentStep r).1 = r := by
        rw [componentStep_of_not ?_]
        rintro ⟨h1, -, -⟩
        rw [hty] at h1
        exact absurd h1 (by decide)
      have hpass : passRow σ.weapons σ.aliases r = (emptyStep r).1 := by
        unfold passRow; rw [hws1, hcs1]
      by_cases hr : r.resolved = false
      · have hes : emptyStep r =
            ({r with resolved := true,
                     resolution_hint := some (("empty").data)}, 1) := by
          simp [emptyStep, hty, hr]
        have hes1 : (emptyStep r).1 =
            {r with resolved := true,
                    resolution_hint := some (("empty").data)} := by
          rw [hes]
        rw [hpass, hes1]
        exact ⟨rfl, rfl, fun _ => rfl⟩
      · have hes1 : (emptyStep r).1 = r := by
          rw [emptyStep_of_not (fun hc => hr hc.2)]
        rw [hpass, hes1]
        refine ⟨rfl, ?_, fun hcon => absurd hcon hr⟩
        cases hb : r.resolved with
        | true => rfl
        | false => exact absurd hb hr
  · intro r hmem hty
    have hstep : (vehicleWeaponStep σ.weapons σ.aliases r).1 = r := by
      rw [vehicleWeaponStep_of_not (fun hc => hty hc.1)]
    rw [resolve_vehicle_staging_eq σ]
    have h2 := List.mem_map_of_mem
      (fun s => (vehicleWeaponStep σ.weapons σ.aliases s).1) hmem
    simp only at h2
    rw [hstep] at h2
    exact h2

/-- Counterexample for C7 as stated: on a store holding a single
unresolved empty-typed vehicle staging row, the vehicle resolution pass
does not mark it resolved. -/
theorem c7_counterexample :
    ¬(∀ r ∈ (Blk.resolve_vehicle_staging c7Store).1.vehicle_staging,
        r.parsed_type = ("empty").data →
        r.resolved = true
        ∧ r.resolution_hint = some (("empty").data)) := by
  decide

/-- Witness for C7's amended theorem at a concrete store: the component
row resolves with hint `component`, the empty row with hint `empty`, and
the vehicle empty row is returned unchanged. -/
theorem c7_auto_resolution_amended_witness :
    (∃ r2 ∈ (Mtf.resolve_staging c7bStore).1.staging, r2.id = 1
      ∧ r2.resolved = true
      ∧ r2.resolution_hint = some (("component").data))
    ∧ (∃ r2 ∈ (Mtf.resolve_staging c7bStore).1.staging, r2.id = 2
      ∧ r2.resolved = true
      ∧ r2.resolution_hint = some (("empty").data))
    ∧ (⟨3, ("a.blk").data, some (("7").data), ("Front").data, 1,
        ("-Empty-").data, none, ("empty").data, none, false, none⟩ :
        StagingVehicleSlotRow) ∈
      (Blk.resolve_vehicle_staging c7bStore).1.vehicle_staging := by
  have h := c7_auto_resolution_amended c7bStore
  refine ⟨?_, ?_, ?_⟩
  · obtain ⟨r2, hm, hid, hres, hhint⟩ := h.1
      (⟨1, ("a.mtf").data, some (("5").data), ("Left Arm").data, 1,
        ("Heat Sink").data, some (("heat sink").data), ("component").data,
        none, some 9, false, none⟩) (by decide) rfl (by decide)
    exact ⟨r2, hm, hid, hres, hhint rfl⟩
  · obtain ⟨r2, hm, hid, hres, hhint⟩ := h.2.1
      (⟨2, ("a.mtf").data, some (("5").data), ("Left Arm").data, 2,
        ("-Empty-").data, none, ("empty").data, none, none, false, none⟩)
      (by decide) rfl
    exact ⟨r2, hm, hid, hres, hhint rfl⟩
  · exact h.2.2
      (⟨3, ("a.blk").data, some (("7").data), ("Front").data, 1,
        ("-Empty-").data, none, ("empty").data, none, false, none⟩)
      (by decide) (by decide)

/-! ### Unresolved-token accounting (C8) -/

theorem filter_updateFirst_pos {p : α → Bool} {f : α → α}
    (hp : ∀ x, p (f x) = p x) (l : List α) :
    (updateFirst p f l).filter p =
      match l.filter p with
      | [] => []
      | x :: xs => f x :: xs := by
  induction l with
  | nil => rfl
  | cons x xs ih =>
    by_cases hx : p x = true
    · simp [updateFirst, hx, List.filter_cons, hp x]
    · have hx' : p x = false := by
        cases hb : p x with
        | true => exact absurd hb hx
        | false => rfl
      simp [updateFirst, hx', List.filter_cons, ih]

theorem filter_updateFirst_ne {p q : α → Bool} {f : α → α}
    (hq : ∀ x, q x = true → p x = false) (hp : ∀ x, p (f x) = p x)
    (l : List α) : (updateFirst q f l).filter p = l.filter p := by
  induction l with
  | nil => rfl
  | cons x xs ih =>
    by_cases hx : q x = true
    · simp [updateFirst, hx, List.filter_cons, hp x, hq x hx]
    · have hx' : q x = false := by
        cases hb : q x with
        | true => exact absurd hb hx
        | false => rfl
      simp only [updateFirst, hx', Bool.false_eq_true, if_false,
        List.filter_cons, ih]

theorem filter_eq_single_find? {p : α → Bool} {l : List α} {u : α}
    (h : l.filter p = [u]) : l.find? p = some u := by
  induction l with
  | nil => simp at h
  | cons x xs ih =>
    by_cases hx : p x = true
    · rw [List.filter_cons_of_pos hx] at h
      rw [List.find?_cons_of_pos _ hx]
      exact congrArg some (List.cons_eq_cons.mp h).1
    · have hx' : p x = false := by
        cases hb : p x with
        | true => exact absurd hb hx
        | false => rfl
      rw [List.filter_cons_of_neg (by simp [hx'])] at h
      rw [List.find?_cons_of_neg _ (by simp [hx'])]
      exact ih h

theorem filter_eq_nil_find? {p : α → Bool} {l : List α}
    (h : l.filter p = []) : l.find? p = none := by
  rw [List.find?_eq_none]
  intro x hx hpx
  have : x ∈ l.filter p := List.mem_filter.mpr ⟨hx, hpx⟩
  rw [h] at this
  cases this

theorem upsert_ne {rows : List StagingUnresolvedRow} {e : TokenInfo}
    {tok : Str} (hne : e.token ≠ tok) :
    suRowsFor (upsertUnresolved rows e) tok = suRowsFor rows tok := by
  unfold upsertUnresolved suRowsFor
  split
  · refine filter_updateFirst_ne ?_ ?_ rows
    · intro x hx
      have hx' : x.token = e.token := of_decide_eq_true hx
      simp [hx', hne]
    · intro x; rfl
  · rw [List.filter_append]
    simp [hne]

theorem upsert_eq_present {rows : List StagingUnresolvedRow}
    {e : TokenInfo} {tok : Str} {u : StagingUnresolvedRow}
    (he : e.token = tok) (hfil : suRowsFor rows tok = [u]) :
    suRowsFor (upsertUnresolved rows e) tok =
      [{u with sample_raw := e.sample_raw,
               example_staging_id := e.example_id,
               seen_count := u.seen_count + e.count}] := by
  have hpe : (fun x : StagingUnresolvedRow => decide (x.token = e.token))
      = (fun x : StagingUnresolvedRow => decide (x.token = tok)) := by
    funext x; rw [he]
  have hfind : rows.find? (fun x => x.token = e.token) = some u := by
    rw [hpe]
    exact filter_eq_single_find? hfil
  unfold upsertUnresolved suRowsFor
  rw [hfind]
  simp only [Option.isSome_some, if_true]
  rw [hpe]
  unfold suRowsFor at hfil
  rw [filter_updateFirst_pos
    (p := fun x : StagingUnresolvedRow => decide (x.token = tok))
    (f := fun x => {x with sample_raw := e.sample_raw,
                           example_staging_id := e.example_id,
                           seen_count := x.seen_count + e.count})
    (fun x => rfl) rows, hfil]

theorem upsert_eq_absent {rows : List StagingUnresolvedRow}
    {e : TokenInfo} {tok : Str}
    (he : e.token = tok) (hfil : suRowsFor rows tok = []) :
    suRowsFor (upsertUnresolved rows e) tok =
      [⟨e.token, e.sample_raw, e.example_id, e.count⟩] := by
  have hpe : (fun x : StagingUnresolvedRow => decide (x.token = e.token))
      = (fun x : StagingUnresolvedRow => decide (x.token = tok)) := by
    funext x; rw [he]
  have hfind : rows.find? (fun x => x.token = e.token) = none := by
    rw [hpe]
    exact filter_eq_nil_find? hfil
  unfold upsertUnresolved suRowsFor
  rw [hfind]
  simp only [Option.isSome_none, Bool.false_eq_true, if_false]
  rw [List.filter_append]
  unfold suRowsFor at hfil
  rw [hfil]
  simp [he]

theorem foldUpsert_present {tok : Str} :
    ∀ (entries : List TokenInfo) (rows : List StagingUnresolvedRow)
      (u : StagingUnresolvedRow), suRowsFor rows tok = [u] →
    ∃ u2, suRowsFor (entries.foldl upsertUnresolved rows) tok = [u2]
      ∧ u2.seen_count = u.seen_count + entryTokSum entries tok := by
  intro entries
  induction entries with
  | nil =>
    intro rows u h
    exact ⟨u, h, by simp [entryTokSum]⟩
  | cons e es ih =>
    intro rows u h
    by_cases he : e.token = tok
    · have hup := upsert_eq_present he h
      obtain ⟨u2, hu2, hc⟩ := ih (upsertUnresolved rows e) _ hup
      refine ⟨u2, hu2, ?_⟩
      have hsum : entryTokSum (e :: es) tok = e.count + entryTokSum es tok := by
        simp [entryTokSum, List.filter_cons, he]
      rw [hc, hsum]
      show u.seen_count + e.count + entryTokSum es tok
        = u.seen_count + (e.count + entryTokSum es tok)
      omega
    · have hup := @upsert_ne rows e tok he
      obtain ⟨u2, hu2, hc⟩ := ih (upsertUnresolved rows e) u (hup.trans h)
      refine ⟨u2, hu2, ?_⟩
      have hsum : entryTokSum (e :: es) tok = entryTokSum es tok := by
        simp [entryTokSum, List.filter_cons, he]
      rw [hc, hsum]

theorem foldUpsert_absent {tok : Str} :
    ∀ (entries : List TokenInfo) (rows : List StagingUnresolvedRow),
      suRowsFor rows tok = [] →
      (entries.filter (fun e => e.token = tok)) ≠ [] →
    ∃ u2, suRowsFor (entries.foldl upsertUnresolved rows) tok = [u2]
      ∧ u2.seen_count = entryTokSum entries tok := by
  intro entries
  induction entries with
  | nil =>
    intro rows _ hne
    exact absurd rfl hne
  | cons e es ih =>
    intro rows h hne
    by_cases he : e.token = tok
    · have hup := upsert_eq_absent he h
      obtain ⟨u2, hu2, hc⟩ :=
        foldUpsert_present es (upsertUnresolved rows e) _ hup
      refine ⟨u2, hu2, ?_⟩
      have hsum : entryTokSum (e :: es) tok = e.count + entryTokSum es tok := by
        simp [entryTokSum, List.filter_cons, he]
      rw [hc, hsum]
    · have hup := @upsert_ne rows e tok he
      rw [h] at hup
      have hne2 : es.filter (fun x => x.token = tok) ≠ [] := by
        intro hcon
        refine hne ?_
        simp [List.filter_cons, he, hcon]
      obtain ⟨u2, hu2, hc⟩ := ih (upsertUnresolved rows e) hup hne2
      refine ⟨u2, hu2, ?_⟩
      rw [hc]
      simp [entryTokSum, List.filter_cons, he]

theorem sum_bump_eq (m : List TokenInfo) (tok raw : Str) (sid : Nat) :
    entryTokSum (bumpToken m tok raw sid) tok = entryTokSum m tok + 1 := by
  by_cases hsome : (m.find? (fun e => e.token = tok)).isSome = true
  · unfold bumpToken
    rw [if_pos hsome]
    rw [entryTokSum, filter_updateFirst_pos
      (p := fun e : TokenInfo => decide (e.token = tok))
      (f := fun e => {e with count := e.count + 1}) (fun x => rfl) m]
    cases hf : m.filter (fun e => decide (e.token = tok)) with
    | nil =>
      exfalso
      rw [filter_eq_nil_find? hf] at hsome
      simp at hsome
    | cons x xs =>
      show ((({x with count := x.count + 1} : TokenInfo) :: xs).map
        (fun e => e.count)).sum = entryTokSum m tok + 1
      rw [entryTokSum, hf]
      simp only [List.map_cons, List.sum_cons]
      show x.count + 1 + (xs.map (fun e => e.count)).sum = _
      omega
  · unfold bumpToken
    rw [if_neg hsome]
    rw [entryTokSum, entryTokSum, List.filter_append]
    have hnil : m.filter (fun e => decide (e.token = tok)) = [] := by
      rw [List.filter_eq_nil_iff]
      intro x hx
      intro hpx
      have : (m.find? (fun e => e.token = tok)).isSome = true :=
        List.find?_isSome.mpr ⟨x, hx, hpx⟩
      exact hsome this
    rw [hnil]
    simp

theorem sum_bump_ne {tok tok2 : Str} (hne : tok2 ≠ tok)
    (m : List TokenInfo) (raw : Str) (sid : Nat) :
    entryTokSum (bumpToken m tok2 raw sid) tok = entryTokSum m tok := by
  unfold bumpToken
  split
  · rw [entryTokSum, filter_updateFirst_ne
      (p := fun e : TokenInfo => decide (e.token = tok))
      (q := fun e : TokenInfo => decide (e.token = tok2))
      (f := fun e => {e with count := e.count + 1}) ?_ (fun x => rfl) m]
    · rfl
    · intro x hx
      have hx' : x.token = tok2 := of_decide_eq_true hx
      simp [hx', hne]
  · rw [entryTokSum, entryTokSum, List.filter_append]
    simp [hne]

theorem buildTokenMap_sum (tok : Str) (htok : tok ≠ []) :
    ∀ (rows : List StagingSlotRow) (acc : List TokenInfo),
    entryTokSum (rows.foldl (fun m s =>
      if truthyStr s.parsed_name then
        bumpToken m (s.parsed_name.getD []) s.raw_text s.id
      else m) acc) tok
    = entryTokSum acc tok
      + (rows.filter (fun s => s.parsed_name = some tok)).length := by
  intro rows
  induction rows with
  | nil => intro acc; simp
  | cons s ss ih =>
    intro acc
    by_cases htruthy : truthyStr s.parsed_name = true
    · cases hpn : s.parsed_name with
      | none =>
        rw [hpn] at htruthy
        simp [truthyStr] at htruthy
      | some t2 =>
        by_cases ht : t2 = tok
        · subst ht
          rw [List.foldl_cons, if_pos htruthy]
          have hgd : s.parsed_name.getD [] = t2 := by rw [hpn]; rfl
          rw [hgd, ih, sum_bump_eq,
            List.filter_cons_of_pos (by simp [hpn])]
          simp only [List.length_cons]
          omega
        · rw [List.foldl_cons, if_pos htruthy]
          have hgd : s.parsed_name.getD [] = t2 := by rw [hpn]; rfl
          rw [hgd, ih, sum_bump_ne ht,
            List.filter_cons_of_neg (by simp [hpn, ht])]
    · rw [List.foldl_cons, if_neg htruthy, ih,
        List.filter_cons_of_neg ?_]
      simp only [decide_eq_true_eq]
      intro hcon
      refine htruthy ?_
      rw [hcon]
      simp [truthyStr, htok]

/-- A freshly staged weapon row whose token misses both catalog lookups
is returned unchanged by the whole resolution pass. -/
theorem passRow_id_of_unmatched {W : List WeaponRow}
    {A : List WeaponAliasRow} {s : StagingSlotRow} {tok : Str}
    (hty : s.parsed_type = ("weapon").data)
    (hname : s.parsed_name = some tok) (hres : s.resolved = false)
    (hfw : W.find? (fun w => w.name = tok) = none)
    (hfa : A.find? (fun a => a.«alias» = tok) = none) :
    passRow W A s = s := by
  rw [passRow_of_weapon hty]
  unfold weaponStep
  rw [if_pos ⟨hty, by rw [hname]; rfl⟩, if_neg (by simp [hres]), hname]
  simp only [hfw, hfa]

theorem resolve_staging_unresolved_eq (σ : Store) :
    (Mtf.resolve_staging σ).1.unresolvedTokens =
      (buildTokenMap ((Mtf.resolve_staging σ).1.staging.filter
        (fun s => s.parsed_type = ("weapon").data
          ∧ (s.weapon_id = none ∨ s.resolved = false)))).foldl
        upsertUnresolved σ.unresolvedTokens := rfl

/-- Rows bearing the fresh uncataloged token survive the pass unchanged
and dominate the name filter of the unresolved-row query. -/
theorem unresolved_tok_filter {W : List WeaponRow}
    {A : List WeaponAliasRow} {tok : Str}
    (hfw : W.find? (fun w => w.name = tok) = none)
    (hfa : A.find? (fun a => a.«alias» = tok) = none) :
    ∀ (l : List StagingSlotRow),
    (∀ s ∈ l, s.parsed_name = some tok →
      s.parsed_type = ("weapon").data ∧ s.resolved = false
      ∧ s.weapon_id = none) →
    ((l.map (passRow W A)).filter (fun s =>
        s.parsed_type = ("weapon").data
        ∧ (s.weapon_id = none ∨ s.resolved = false))).filter
      (fun s => s.parsed_name = some tok)
    = l.filter (fun s => s.parsed_name = some tok) := by
  intro l
  induction l with
  | nil => intro _; rfl
  | cons s ss ih =>
    intro H2
    have ihs := ih (fun x hx => H2 x (List.mem_cons_of_mem s hx))
    by_cases hname : s.parsed_name = some tok
    · obtain ⟨hty, hres, hwid⟩ := H2 s (List.mem_cons_self s ss) hname
      have hid : passRow W A s = s :=
        passRow_id_of_unmatched hty hname hres hfw hfa
      rw [List.map_cons, hid,
        List.filter_cons_of_pos (by simp [hty, hwid]),
        List.filter_cons_of_pos (by simp [hname]),
        List.filter_cons_of_pos (by simp [hname]), ihs]
    · have hnm : (passRow W A s).parsed_name = s.parsed_name := by
        unfold passRow
        rw [(emptyStep_fields (componentStep (weaponStep W A s).1).1).2.1,
            (componentStep_fields (weaponStep W A s).1).2.1,
            (weaponStep_fields W A s).2.1]
      rw [List.map_cons]
      by_cases hq : ((passRow W A s).parsed_type = ("weapon").data
          ∧ ((passRow W A s).weapon_id = none
             ∨ (passRow W A s).resolved = false))
      · rw [List.filter_cons_of_pos (by simp [hq.1, hq.2]),
          List.filter_cons_of_neg (by simp [hnm, hname]),
          List.filter_cons_of_neg (by simp [hname]), ihs]
      · rw [List.filter_cons_of_neg (by simpa using hq),
          List.filter_cons_of_neg (by simp [hname]), ihs]

/-- C8: starting from an empty `staging_unresolved` table, staging N
weapon rows sharing a fresh token that matches neither the catalog nor
the aliases and resolving once produces exactly one unresolved-token row
with `seen_count = N`; a pass over a store already holding a row for the
token adds N to its count rather than resetting it. -/
theorem c8_unresolved_token_accounting (σ : Store) (tok : Str)
    (htok : tok ≠ [])
    (hW : ∀ w ∈ σ.weapons, w.name ≠ tok)
    (hA : ∀ a ∈ σ.aliases, a.«alias» ≠ tok)
    (H2 : ∀ s ∈ σ.staging, s.parsed_name = some tok →
      s.parsed_type = ("weapon").data ∧ s.resolved = false
      ∧ s.weapon_id = none)
    (hN : 0 < (σ.staging.filter
      (fun s => s.parsed_name = some tok)).length) :
    (σ.unresolvedTokens = [] →
      ∃ u, suRowsFor (Mtf.resolve_staging σ).1.unresolvedTokens tok = [u]
        ∧ u.seen_count = (σ.staging.filter
            (fun s => s.parsed_name = some tok)).length)
    ∧ (∀ u0, suRowsFor σ.unresolvedTokens tok = [u0] →
      ∃ u, suRowsFor (Mtf.resolve_staging σ).1.unresolvedTokens tok = [u]
        ∧ u.seen_count = u0.seen_count + (σ.staging.filter
            (fun s => s.parsed_name = some tok)).length) := by
  have hfw : σ.weapons.find? (fun w => w.name = tok) = none := by
    rw [List.find?_eq_none]
    intro w hw
    simp [hW w hw]
  have hfa : σ.aliases.find? (fun a => a.«alias» = tok) = none := by
    rw [List.find?_eq_none]
    intro a ha
    simp [hA a ha]
  have hfilter := unresolved_tok_filter hfw hfa σ.staging H2
  have hsum : entryTokSum (buildTokenMap
      ((Mtf.resolve_staging σ).1.staging.filter
        (fun s => s.parsed_type = ("weapon").data
          ∧ (s.weapon_id = none ∨ s.resolved = false)))) tok
      = (σ.staging.filter (fun s => s.parsed_name = some tok)).length := by
    rw [resolve_staging_staging_eq σ]
    unfold buildTokenMap
    rw [buildTokenMap_sum tok htok _ []]
    have := hfilter
    rw [show (List.filter (fun s => decide (s.parsed_name = some tok))
        (List.filter (fun s => decide (s.parsed_type = ("weapon").data
          ∧ (s.weapon_id = none ∨ s.resolved = false)))
          (σ.staging.map (passRow σ.weapons σ.aliases)))).length
      = (σ.staging.filter (fun s =>
          decide (s.parsed_name = some tok))).length from by rw [this]]
    simp [entryTokSum]
  have hnonempty : (buildTokenMap
      ((Mtf.resolve_staging σ).1.staging.filter
        (fun s => s.parsed_type = ("weapon").data
          ∧ (s.weapon_id = none ∨ s.resolved = false)))).filter
      (fun e => e.token = tok) ≠ [] := by
    intro hcon
    rw [entryTokSum, hcon] at hsum
    simp at hsum
    omega
  constructor
  · intro hempty
    have hbase : suRowsFor σ.unresolvedTokens tok = [] := by
      rw [suRowsFor, hempty]
      rfl
    rw [resolve_staging_unresolved_eq σ]
    obtain ⟨u, hu, hc⟩ := foldUpsert_absent _ σ.unresolvedTokens
      hbase hnonempty
    exact ⟨u, hu, by rw [hc, hsum]⟩
  · intro u0 hbase
    rw [resolve_staging_unresolved_eq σ]
    obtain ⟨u, hu, hc⟩ := foldUpsert_present _ σ.unresolvedTokens
      u0 hbase
    exact ⟨u, hu, by rw [hc, hsum]⟩

/-- Witness for C8: three staged copies of the uncataloged token
`zapgun` produce, after one pass from an empty aggregate, a single
unresolved-token row with `seen_count = 3`. -/
theorem c8_unresolved_token_accounting_witness :
    ∃ u, suRowsFor (Mtf.resolve_staging c8Store).1.unresolvedTokens
        (("zapgun").data) = [u] ∧ u.seen_count = 3 := by
  have h := c8_unresolved_token_accounting c8Store (("zapgun").data)
    (by decide) (by decide) (by decide) (by decide) (by decide)
  obtain ⟨u, hu, hc⟩ := h.1 rfl
  exact ⟨u, hu, by rw [hc]; decide⟩

/-! ### Finalizer idempotence (C2) -/

theorem mechLookup_congr {σ σ2 : Store} (h : σ2.mechs = σ.mechs)
    (s : StagingSlotRow) : mechLookup σ2 s = mechLookup σ s := by
  unfold mechLookup
  rw [h]

theorem finalized_mono {σ σ2 : Store} {s : StagingSlotRow}
    (h : Finalized σ s) (hm : σ2.mechs = σ.mechs)
    (hl : ∃ Δ, σ2.locations = σ.locations ++ Δ)
    (hs : ∃ Δ, σ2.slots = σ.slots ++ Δ) : Finalized σ2 s := by
  unfold Finalized at h ⊢
  rw [mechLookup_congr hm]
  cases hmc : mechLookup σ s with
  | none => trivial
  | some mech =>
    rw [hmc] at h
    obtain ⟨loc, hloc, hslot⟩ := h
    obtain ⟨Δl, hΔl⟩ := hl
    obtain ⟨Δs, hΔs⟩ := hs
    refine ⟨loc, ?_, ?_⟩
    · rw [hΔl, List.find?_append, hloc]
      rfl
    · rw [hΔs, List.find?_append]
      obtain ⟨sl, hsl⟩ := Option.isSome_iff_exists.mp hslot
      rw [hsl]
      rfl

theorem finStep_eq_none {σ : Store} {a b : Nat} {s : StagingSlotRow}
    (hm : mechLookup σ s = none) : Mtf.finStep (σ, a, b) s = (σ, a, b) := by
  unfold Mtf.finStep
  dsimp only
  rw [hm]

theorem finStep_eq_skip {σ : Store} {a b : Nat} {s : StagingSlotRow}
    {mech : MechRow} {l : LocationRow} {sl : SlotRow}
    (hm : mechLookup σ s = some mech)
    (hl : σ.locations.find? (fun x =>
      x.mech_id = mech.id ∧ x.name = s.location_name) = some l)
    (hs2 : σ.slots.find? (fun x =>
      x.location_id = l.id ∧ x.slot_index = s.slot_index) = some sl) :
    Mtf.finStep (σ, a, b) s = (σ, a, b) := by
  unfold Mtf.finStep
  dsimp only
  rw [hm]
  dsimp only
  rw [hl]
  dsimp only
  rw [hs2]

theorem finStep_eq_createSlot {σ : Store} {a b : Nat} {s : StagingSlotRow}
    {mech : MechRow} {l : LocationRow}
    (hm : mechLookup σ s = some mech)
    (hl : σ.locations.find? (fun x =>
      x.mech_id = mech.id ∧ x.name = s.location_name) = some l)
    (hs2 : σ.slots.find? (fun x =>
      x.location_id = l.id ∧ x.slot_index = s.slot_index) = none) :
    Mtf.finStep (σ, a, b) s =
      (let slot : SlotRow :=
        ⟨σ.nextId, l.id, s.slot_index, s.raw_text, s.component_type_id,
         if ¬s.raw_text.isEmpty ∧ memEmptyVariants s.raw_text
         then some (("Empty").data) else none⟩
       let σ2 : Store :=
         {σ with slots := σ.slots ++ [slot], nextId := σ.nextId + 1}
       let winst : WeaponInstanceRow := ⟨σ2.nextId, slot.id, s.weapon_id, 1⟩
       if truthyNat s.weapon_id = true then
         ({σ2 with weapon_instances := σ2.weapon_instances ++ [winst],
                   nextId := σ2.nextId + 1}, a + 1, b + 1)
       else (σ2, a + 1, b)) := by
  unfold Mtf.finStep
  dsimp only
  rw [hm]
  dsimp only
  rw [hl]
  dsimp only
  rw [hs2]

theorem finStep_eq_skipNewLoc {σ : Store} {a b : Nat}
    {s : StagingSlotRow} {mech : MechRow} {sl : SlotRow}
    (hm : mechLookup σ s = some mech)
    (hl : σ.locations.find? (fun x =>
      x.mech_id = mech.id ∧ x.name = s.location_name) = none)
    (hs2 : σ.slots.find? (fun x =>
      x.location_id = σ.nextId ∧ x.slot_index = s.slot_index) = some sl) :
    Mtf.finStep (σ, a, b) s =
      (let newLoc : LocationRow := ⟨σ.nextId, mech.id, s.location_name⟩
       ({σ with locations := σ.locations ++ [newLoc],
                nextId := σ.nextId + 1}, a, b)) := by
  unfold Mtf.finStep
  dsimp only
  rw [hm]
  dsimp only
  rw [hl]
  dsimp only
  rw [hs2]

theorem finStep_eq_createBoth {σ : Store} {a b : Nat}
    {s : StagingSlotRow} {mech : MechRow}
    (hm : mechLookup σ s = some mech)
    (hl : σ.locations.find? (fun x =>
      x.mech_id = mech.id ∧ x.name = s.location_name) = none)
    (hs2 : σ.slots.find? (fun x =>
      x.location_id = σ.nextId ∧ x.slot_index = s.slot_index) = none) :
    Mtf.finStep (σ, a, b) s =
      (let newLoc : LocationRow := ⟨σ.nextId, mech.id, s.location_name⟩
       let σ1 : Store :=
         {σ with locations := σ.locations ++ [newLoc],
                 nextId := σ.nextId + 1}
       let slot : SlotRow :=
        ⟨σ1.nextId, σ.nextId, s.slot_index, s.raw_text,
         s.component_type_id,
         if ¬s.raw_text.isEmpty ∧ memEmptyVariants s.raw_text
         then some (("Empty").data) else none⟩
       let σ2 : Store :=
         {σ1 with slots := σ1.slots ++ [slot], nextId := σ1.nextId + 1}
       let winst : WeaponInstanceRow := ⟨σ2.nextId, slot.id, s.weapon_id, 1⟩
       if truthyNat s.weapon_id = true then
         ({σ2 with weapon_instances := σ2.weapon_instances ++ [winst],
                   nextId := σ2.nextId + 1}, a + 1, b + 1)
       else (σ2, a + 1, b)) := by
  unfold Mtf.finStep
  dsimp only
  rw [hm]
  dsimp only
  rw [hl]
  dsimp only
  rw [hs2]

theorem finStep_analysis (acc : Store × Nat × Nat) (s : StagingSlotRow) :
    (Mtf.finStep acc s).1.mechs = acc.1.mechs
    ∧ (Mtf.finStep acc s).1.staging = acc.1.staging
    ∧ (∃ Δ, (Mtf.finStep acc s).1.locations = acc.1.locations ++ Δ)
    ∧ (∃ Δ, (Mtf.finStep acc s).1.slots = acc.1.slots ++ Δ)
    ∧ Finalized (Mtf.finStep acc s).1 s := by
  rcases acc with ⟨σ, a, b⟩
  cases hm : mechLookup σ s with
  | none =>
    rw [finStep_eq_none hm]
    refine ⟨rfl, rfl, ⟨[], by simp⟩, ⟨[], by simp⟩, ?_⟩
    unfold Finalized
    rw [hm]
    trivial
  | some mech =>
    cases hl : σ.locations.find? (fun x =>
        x.mech_id = mech.id ∧ x.name = s.location_name) with
    | some l =>
      cases hs2 : σ.slots.find? (fun x =>
          x.location_id = l.id ∧ x.slot_index = s.slot_index) with
      | some sl =>
        rw [finStep_eq_skip hm hl hs2]
        refine ⟨rfl, rfl, ⟨[], by simp⟩, ⟨[], by simp⟩, ?_⟩
        unfold Finalized
        rw [hm]
        exact ⟨l, hl, by rw [hs2]; rfl⟩
      | none =>
        rw [finStep_eq_createSlot hm hl hs2]
        have hfin : ∀ (σ2 : Store), σ2.mechs = σ.mechs →
            σ2.locations = σ.locations →
            (∃ rest, σ2.slots = σ.slots ++
              ⟨σ.nextId, l.id, s.slot_index, s.raw_text,
               s.component_type_id,
               if ¬s.raw_text.isEmpty ∧ memEmptyVariants s.raw_text
               then some (("Empty").data) else none⟩ :: rest) →
            Finalized σ2 s := by
          intro σ2 h1 h2 h3
          unfold Finalized
          rw [mechLookup_congr h1, hm]
          refine ⟨l, by rw [h2]; exact hl, ?_⟩
          obtain ⟨rest, hrest⟩ := h3
          rw [hrest]
          refine List.find?_isSome.mpr ⟨_, List.mem_append_right _
            (List.mem_cons_self _ _), by simp⟩
        by_cases hw : truthyNat s.weapon_id = true
        · rw [if_pos hw]
          exact ⟨rfl, rfl, ⟨[], by simp⟩, ⟨[_], rfl⟩,
            hfin _ rfl rfl ⟨[], rfl⟩⟩
        · rw [if_neg hw]
          exact ⟨rfl, rfl, ⟨[], by simp⟩, ⟨[_], rfl⟩,
            hfin _ rfl rfl ⟨[], rfl⟩⟩
    | none =>
      cases hs2 : σ.slots.find? (fun x =>
          x.location_id = σ.nextId ∧ x.slot_index = s.slot_index) with
      | some sl =>
        rw [finStep_eq_skipNewLoc hm hl hs2]
        have hfin : ∀ (σ2 : Store), σ2.mechs = σ.mechs →
            σ2.locations = σ.locations ++
              [⟨σ.nextId, mech.id, s.location_name⟩] →
            σ2.slots = σ.slots → Finalized σ2 s := by
          intro σ2 h1 h2 h3
          unfold Finalized
          rw [mechLookup_congr h1, hm]
          refine ⟨⟨σ.nextId, mech.id, s.location_name⟩, ?_, ?_⟩
          · rw [h2, List.find?_append, hl]
            simp
          · rw [h3, hs2]
            rfl
        exact ⟨rfl, rfl, ⟨[_], rfl⟩, ⟨[], by simp⟩, hfin _ rfl rfl rfl⟩
      | none =>
        rw [finStep_eq_createBoth hm hl hs2]
        have hfin : ∀ (σ2 : Store), σ2.mechs = σ.mechs →
            σ2.locations = σ.locations ++
              [⟨σ.nextId, mech.id, s.location_name⟩] →
            (∃ rest, σ2.slots = σ.slots ++
              ⟨σ.nextId + 1, σ.nextId, s.slot_index, s.raw_text,
               s.component_type_id,
               if ¬s.raw_text.isEmpty ∧ memEmptyVariants s.raw_text
               then some (("Empty").data) else none⟩ :: rest) →
            Finalized σ2 s := by
          intro σ2 h1 h2 h3
          unfold Finalized
          rw [mechLookup_congr h1, hm]
          refine ⟨⟨σ.nextId, mech.id, s.location_name⟩, ?_, ?_⟩
          · rw [h2, List.find?_append, hl]
            simp
          · obtain ⟨rest, hrest⟩ := h3
            rw [hrest]
            refine List.find?_isSome.mpr ⟨_, List.mem_append_right _
              (List.mem_cons_self _ _), by simp⟩
        by_cases hw : truthyNat s.weapon_id = true
        · rw [if_pos hw]
          exact ⟨rfl, rfl, ⟨[_], rfl⟩, ⟨[_], rfl⟩,
            hfin _ rfl rfl ⟨[], rfl⟩⟩
        · rw [if_neg hw]
          exact ⟨rfl, rfl, ⟨[_], rfl⟩, ⟨[_], rfl⟩,
            hfin _ rfl rfl ⟨[], rfl⟩⟩

theorem finStep_of_finalized {σ : Store} {a b : Nat} {s : StagingSlotRow}
    (h : Finalized σ s) : Mtf.finStep (σ, a, b) s = (σ, a, b) := by
  unfold Finalized at h
  cases hm : mechLookup σ s with
  | none => exact finStep_eq_none hm
  | some mech =>
    rw [hm] at h
    obtain ⟨loc, hloc, hslot⟩ := h
    obtain ⟨sl, hsl⟩ := Option.isSome_iff_exists.mp hslot
    exact finStep_eq_skip hm hloc hsl

theorem finStep_unique {acc : Store × Nat × Nat} {s : StagingSlotRow}
    (h : SlotKeysUnique acc.1) : SlotKeysUnique (Mtf.finStep acc s).1 := by
  rcases acc with ⟨σ, a, b⟩
  have happend : ∀ (lid : Nat),
      σ.slots.find? (fun sl =>
        sl.location_id = lid ∧ sl.slot_index = s.slot_index) = none →
      ∀ (sl2 : SlotRow), sl2.location_id = lid →
      sl2.slot_index = s.slot_index →
      (σ.slots ++ [sl2]).Pairwise (fun x y =>
        ¬(x.location_id = y.location_id ∧ x.slot_index = y.slot_index)) := by
    intro lid hfind sl2 h1 h2
    rw [List.pairwise_append]
    refine ⟨h, List.pairwise_singleton _ _, ?_⟩
    intro x hx y hy
    rw [List.mem_singleton.mp hy]
    have := List.find?_eq_none.mp hfind x hx
    simp only [decide_eq_true_eq] at this
    rintro ⟨e1, e2⟩
    rw [h1] at e1
    rw [h2] at e2
    exact this ⟨e1, e2⟩
  cases hm : mechLookup σ s with
  | none =>
    rw [finStep_eq_none hm]
    exact h
  | some mech =>
    cases hl : σ.locations.find? (fun x =>
        x.mech_id = mech.id ∧ x.name = s.location_name) with
    | some l =>
      cases hs2 : σ.slots.find? (fun x =>
          x.location_id = l.id ∧ x.slot_index = s.slot_index) with
      | some sl =>
        rw [finStep_eq_skip hm hl hs2]
        exact h
      | none =>
        rw [finStep_eq_createSlot hm hl hs2]
        by_cases hw : truthyNat s.weapon_id = true
        · rw [if_pos hw]
          exact happend l.id hs2 _ rfl rfl
        · rw [if_neg hw]
          exact happend l.id hs2 _ rfl rfl
    | none =>
      cases hs2 : σ.slots.find? (fun x =>
          x.location_id = σ.nextId ∧ x.slot_index = s.slot_index) with
      | some sl =>
        rw [finStep_eq_skipNewLoc hm hl hs2]
        exact h
      | none =>
        rw [finStep_eq_createBoth hm hl hs2]
        by_cases hw : truthyNat s.weapon_id = true
        · rw [if_pos hw]
          exact happend σ.nextId hs2 _ rfl rfl
        · rw [if_neg hw]
          exact happend σ.nextId hs2 _ rfl rfl

theorem foldFin_analysis (rows : List StagingSlotRow) :
    ∀ (acc : Store × Nat × Nat),
    (rows.foldl Mtf.finStep acc).1.mechs = acc.1.mechs
    ∧ (rows.foldl Mtf.finStep acc).1.staging = acc.1.staging
    ∧ (∃ Δ, (rows.foldl Mtf.finStep acc).1.locations = acc.1.locations ++ Δ)
    ∧ (∃ Δ, (rows.foldl Mtf.finStep acc).1.slots = acc.1.slots ++ Δ) := by
  induction rows with
  | nil => intro acc; exact ⟨rfl, rfl, ⟨[], by simp⟩, ⟨[], by simp⟩⟩
  | cons x xs ih =>
    intro acc
    have hstep := finStep_analysis acc x
    have hrest := ih (Mtf.finStep acc x)
    rw [List.foldl_cons]
    refine ⟨hrest.1.trans hstep.1, hrest.2.1.trans hstep.2.1, ?_, ?_⟩
    · obtain ⟨Δ1, h1⟩ := hrest.2.2.1
      obtain ⟨Δ2, h2⟩ := hstep.2.2.1
      exact ⟨Δ2 ++ Δ1, by rw [h1, h2, List.append_assoc]⟩
    · obtain ⟨Δ1, h1⟩ := hrest.2.2.2
      obtain ⟨Δ2, h2⟩ := hstep.2.2.2.1
      exact ⟨Δ2 ++ Δ1, by rw [h1, h2, List.append_assoc]⟩

theorem foldFin_establishes (rows : List StagingSlotRow) :
    ∀ (acc : Store × Nat × Nat), ∀ r ∈ rows,
    Finalized ((rows.foldl Mtf.finStep acc).1) r := by
  induction rows with
  | nil => intro acc r hr; cases hr
  | cons x xs ih =>
    intro acc r hr
    rw [List.foldl_cons]
    rcases List.mem_cons.mp hr with rfl | hr
    · have hest := (finStep_analysis acc r).2.2.2.2
      have hmono := foldFin_analysis xs (Mtf.finStep acc r)
      exact finalized_mono hest hmono.1 hmono.2.2.1 hmono.2.2.2
    · exact ih (Mtf.finStep acc x) r hr

theorem foldFin_id (rows : List StagingSlotRow) :
    ∀ (σ : Store) (a b : Nat), (∀ r ∈ rows, Finalized σ r) →
    rows.foldl Mtf.finStep (σ, a, b) = (σ, a, b) := by
  induction rows with
  | nil => intro σ a b _; rfl
  | cons x xs ih =>
    intro σ a b h
    rw [List.foldl_cons, finStep_of_finalized (h x (List.mem_cons_self x xs))]
    exact ih σ a b (fun r hr => h r (List.mem_cons_of_mem x hr))

theorem foldFin_unique (rows : List StagingSlotRow) :
    ∀ (acc : Store × Nat × Nat), SlotKeysUnique acc.1 →
    SlotKeysUnique ((rows.foldl Mtf.finStep acc).1) := by
  induction rows with
  | nil => intro acc h; exact h
  | cons x xs ih =>
    intro acc h
    rw [List.foldl_cons]
    exact ih (Mtf.finStep acc x) (finStep_unique h)

/-- C2: finalization is idempotent — a second run immediately after a
first leaves the store unchanged and creates zero Slots and zero
WeaponInstances, and any number of runs preserves uniqueness of the
(location, slot index) key over the `slot` table. -/
theorem c2_finalize_idempotent (σ : Store) :
    Mtf.finalize_slots_from_staging
        ((Mtf.finalize_slots_from_staging σ).1)
      = ((Mtf.finalize_slots_from_staging σ).1, 0, 0)
    ∧ (∀ n, SlotKeysUnique σ → SlotKeysUnique (finIter n σ)) := by
  constructor
  · have hstag : (Mtf.finalize_slots_from_staging σ).1.staging = σ.staging :=
      (foldFin_analysis _ (σ, 0, 0)).2.1
    have hfin : ∀ r ∈ σ.staging.filter (fun s => s.resolved = true),
        Finalized ((Mtf.finalize_slots_from_staging σ).1) r :=
      fun r hr => foldFin_establishes _ (σ, 0, 0) r hr
    show (((Mtf.finalize_slots_from_staging σ).1).staging.filter
      (fun s => s.resolved = true)).foldl Mtf.finStep
      ((Mtf.finalize_slots_from_staging σ).1, 0, 0) = _
    rw [hstag]
    exact foldFin_id _ _ 0 0 hfin
  · intro n
    induction n with
    | zero => intro h; exact h
    | succ k ih =>
      intro h
      have : finIter (k + 1) σ =
          (Mtf.finalize_slots_from_staging (finIter k σ)).1 := by
        unfold finIter
        rw [Function.iterate_succ_apply']
      rw [this]
      exact foldFin_unique _ (finIter k σ, 0, 0) (ih h)

/-- Witness for C2: on the concrete fixture the first finalization run
creates one Slot and one WeaponInstance, the second run returns the
store unchanged with (0, 0), and slot-key uniqueness holds after two
runs. -/
theorem c2_finalize_idempotent_witness :
    (Mtf.finalize_slots_from_staging c2Store).2 = (1, 1)
    ∧ Mtf.finalize_slots_from_staging
        ((Mtf.finalize_slots_from_staging c2Store).1)
      = ((Mtf.finalize_slots_from_staging c2Store).1, 0, 0)
    ∧ SlotKeysUnique (finIter 2 c2Store) := by
  refine ⟨by decide, (c2_finalize_idempotent c2Store).1,
    (c2_finalize_idempotent c2Store).2 2 ?_⟩
  show List.Pairwise _ ([] : List SlotRow)
  exact List.Pairwise.nil

/-! ### Documents without a mul id never finalize (C10) -/

theorem bind_ok {α β : Type} {x : Except IngestError α}
    {f : α → Except IngestError β} {b : β}
    (h : (x >>= f) = .ok b) : ∃ a, x = .ok a ∧ f a = .ok b := by
  cases x with
  | error e => simp [Bind.bind, Except.bind] at h
  | ok a => exact ⟨a, rfl, by simpa [Bind.bind, Except.bind] using h⟩

theorem resolve_component_type_staging (σ : Store) (raw : Str) :
    (resolve_component_type σ raw).1.staging = σ.staging := by
  unfold resolve_component_type
  split
  · rfl
  · dsimp only
    split
    · rfl
    · split
      · rfl
      · rfl

theorem enqueue_staging (σ : Store) (uk nm : Str) (v mt : Option Str) :
    (enqueue_bv_pv_job σ uk nm v mt).staging = σ.staging := by
  unfold enqueue_bv_pv_job
  split
  · rfl
  · split
    · rfl
    · rfl

theorem insertMech_staging {σ σ2 : Store} {m : MechRow}
    (h : insertMech σ m = .ok σ2) : σ2.staging = σ.staging := by
  unfold insertMech at h
  split at h
  · cases h
  · cases h
    rfl

theorem insertLocation_staging {σ σ2 : Store} {l : LocationRow}
    (h : insertLocation σ l = .ok σ2) : σ2.staging = σ.staging := by
  unfold insertLocation at h
  split at h
  · cases h
  · cases h
    rfl

theorem stageItems_staging (fn : Str) (ext : Option Str) (locName : Str) :
    ∀ (items : List Str) (σ : Store) (idx : Nat),
    ∃ new, (Mtf.stageItems σ fn ext locName items idx).1.staging
        = σ.staging ++ new
      ∧ ∀ r ∈ new, r.mech_external_id = ext := by
  intro items
  induction items with
  | nil => intro σ idx; exact ⟨[], by simp [Mtf.stageItems], by simp⟩
  | cons item rest ih =>
    intro σ idx
    unfold Mtf.stageItems
    dsimp only
    have h1 : (if Mtf.guess_parsed_type (strip item) = ("component").data
        then resolve_component_type σ (strip item)
        else (σ, none)).1.staging = σ.staging := by
      split
      · exact resolve_component_type_staging σ _
      · rfl
    obtain ⟨new, hnew, hext⟩ := ih _ (idx + 1)
    refine ⟨(⟨(if Mtf.guess_parsed_type (strip item) = ("component").data
        then resolve_component_type σ (strip item) else (σ, none)).1.nextId,
      fn, ext, locName, idx, strip item, normalize_token (strip item),
      Mtf.guess_parsed_type (strip item), none,
      (if Mtf.guess_parsed_type (strip item) = ("component").data
        then resolve_component_type σ (strip item) else (σ, none)).2,
      false, none⟩ : StagingSlotRow) :: new, ?_, ?_⟩
    · rw [hnew]
      show _ ++ [_] ++ new = σ.staging ++ (_ :: new)
      rw [h1, List.append_assoc]
      rfl
    · intro r hr
      rcases List.mem_cons.mp hr with rfl | hr
      · rfl
      · exact hext r hr

theorem stageLocations_staging (fn : Str) (ext : Option Str)
    (mechId : Nat) :
    ∀ (locs : List (Str × List Str)) (σ σ2 : Store) (ids : List Nat),
    Mtf.stageLocations σ fn ext mechId locs = .ok (σ2, ids) →
    ∃ new, σ2.staging = σ.staging ++ new
      ∧ ∀ r ∈ new, r.mech_external_id = ext := by
  intro locs
  induction locs with
  | nil =>
    intro σ σ2 ids h
    cases h
    exact ⟨[], by simp, by simp⟩
  | cons loc rest ih =>
    intro σ σ2 ids h
    unfold Mtf.stageLocations at h
    obtain ⟨σ1, hins, h2⟩ := bind_ok h
    dsimp only at h2
    obtain ⟨p, hrest, h3⟩ := bind_ok h2
    cases h3
    obtain ⟨new1, hnew1, hext1⟩ :=
      stageItems_staging fn ext loc.1 loc.2 σ1 1
    obtain ⟨new2, hnew2, hext2⟩ := ih _ _ _ hrest
    refine ⟨new1 ++ new2, ?_, ?_⟩
    · rw [hnew2, hnew1, insertLocation_staging hins, List.append_assoc]
    · intro r hr
      rcases List.mem_append.mp hr with hr | hr
      · exact hext1 r hr
      · exact hext2 r hr

theorem quirkLoop_staging (entry : Store) :
    ∀ (qs : List Str) (σ : Store) (mid : Nat),
    (Mtf.quirkLoop entry σ mid qs).staging = σ.staging
    ∨ (Mtf.quirkLoop entry σ mid qs).staging = entry.staging := by
  intro qs
  induction qs with
  | nil => intro σ mid; exact Or.inl rfl
  | cons q rest ih =>
    intro σ mid
    unfold Mtf.quirkLoop
    dsimp only
    split
    · exact ih σ mid
    · cases hf : σ.quirks.find? (fun x => x.code = strip q) with
      | some x =>
        dsimp only
        split
        · rcases ih entry mid with h | h
          · exact Or.inr h
          · exact Or.inr h
        · rcases ih _ mid with h | h
          · exact Or.inl h
          · exact Or.inr h
      | none =>
        dsimp only
        split
        · rcases ih entry mid with h | h
          · exact Or.inr h
          · exact Or.inr h
        · rcases ih _ mid with h | h
          · exact Or.inl h
          · exact Or.inr h

theorem manufacturerLoop_staging (entry : Store) :
    ∀ (ms : List Str) (σ : Store) (mid : Nat),
    (Mtf.manufacturerLoop entry σ mid ms).staging = σ.staging
    ∨ (Mtf.manufacturerLoop entry σ mid ms).staging = entry.staging := by
  intro ms
  induction ms with
  | nil => intro σ mid; exact Or.inl rfl
  | cons m rest ih =>
    intro σ mid
    unfold Mtf.manufacturerLoop
    dsimp only
    split
    · exact ih σ mid
    · cases hf : σ.manufacturers.find? (fun x => x.name = strip m) with
      | some x =>
        dsimp only
        split
        · rcases ih entry mid with h | h
          · exact Or.inr h
          · exact Or.inr h
        · rcases ih _ mid with h | h
          · exact Or.inl h
          · exact Or.inr h
      | none =>
        dsimp only
        split
        · rcases ih entry mid with h | h
          · exact Or.inr h
          · exact Or.inr h
        · rcases ih _ mid with h | h
          · exact Or.inl h
          · exact Or.inr h

theorem factoryLoop_staging (entry : Store) :
    ∀ (fs : List Str) (σ : Store) (mid : Nat),
    (Mtf.factoryLoop entry σ mid fs).staging = σ.staging
    ∨ (Mtf.factoryLoop entry σ mid fs).staging = entry.staging := by
  intro fs
  induction fs with
  | nil => intro σ mid; exact Or.inl rfl
  | cons f rest ih =>
    intro σ mid
    unfold Mtf.factoryLoop
    dsimp only
    split
    · exact ih σ mid
    · cases hf : σ.factories.find? (fun x => x.name = strip f) with
      | some x =>
        dsimp only
        split
        · rcases ih entry mid with h | h
          · exact Or.inr h
          · exact Or.inr h
        · rcases ih _ mid with h | h
          · exact Or.inl h
          · exact Or.inr h
      | none =>
        dsimp only
        split
        · rcases ih entry mid with h | h
          · exact Or.inr h
          · exact Or.inr h
        · rcases ih _ mid with h | h
          · exact Or.inl h
          · exact Or.inr h

theorem bvPhase_staging (σ : Store) (mode : BvPvMode) (chassis : Str)
    (model : Option Str) :
    (Mtf.bvPhase σ mode chassis model).staging = σ.staging := by
  cases mode with
  | enqueue => exact enqueue_staging σ _ chassis model none
  | skip => rfl

theorem sysMfgPhase_staging (mid : Nat) :
    ∀ (ls : List Str) (σ : Store),
    (Mtf.sysMfgPhase σ mid ls).staging = σ.staging := by
  intro ls
  induction ls with
  | nil => intro σ; rfl
  | cons x xs ih =>
    intro σ
    unfold Mtf.sysMfgPhase at ih ⊢
    rw [List.foldl_cons, ih]
    split
    · rfl
    · rfl

theorem narrativePhase_staging (σ : Store) (mid : Nat)
    (parsed : ParsedMech) :
    (Mtf.narrativePhase σ mid parsed).staging = σ.staging := by
  unfold Mtf.narrativePhase
  split
  · rfl
  · rfl

theorem logPhase_staging (σ : Store) (fn : Str) :
    (Mtf.logPhase σ fn).staging = σ.staging := rfl

theorem ingest_staging_ext (σ : Store) (parsed : ParsedMech) (fn : Str)
    (mode : BvPvMode) :
    ∀ (σR : Store) (mid : Nat) (ids : List Nat),
    Mtf.ingest_parsed_mech σ parsed fn mode = .ok (σR, mid, ids) →
    ∃ new, σR.staging = σ.staging ++ new
      ∧ ∀ r ∈ new, r.mech_external_id =
        (if parsed.mul_id.isSome
         then some (intToStr (parsed.mul_id.getD 0)) else none) := by
  intro σR mid ids hok
  unfold Mtf.ingest_parsed_mech at hok
  dsimp only at hok
  obtain ⟨σ1, hins, hok⟩ := bind_ok hok
  obtain ⟨staged, hstage, hok⟩ := bind_ok hok
  obtain ⟨σ5, ids5⟩ := staged
  dsimp only at hok
  simp only [Except.ok.injEq, Prod.mk.injEq] at hok
  obtain ⟨hσR, hmid, hids⟩ := hok
  obtain ⟨new, hnew, hext⟩ :=
    stageLocations_staging fn _ _ parsed.locations _ _ _ hstage
  rw [narrativePhase_staging, sysMfgPhase_staging,
    bvPhase_staging, insertMech_staging hins] at hnew
  subst hσR
  rw [logPhase_staging]
  rcases factoryLoop_staging σ parsed.factory
      (Mtf.manufacturerLoop σ (Mtf.quirkLoop σ σ5 σ.nextId parsed.quirks)
        σ.nextId parsed.manufacturer) σ.nextId with h8 | h8
  · rw [h8]
    rcases manufacturerLoop_staging σ parsed.manufacturer
        (Mtf.quirkLoop σ σ5 σ.nextId parsed.quirks) σ.nextId with h7 | h7
    · rw [h7]
      rcases quirkLoop_staging σ parsed.quirks σ5 σ.nextId with h6 | h6
      · rw [h6]
        exact ⟨new, by rw [hnew], hext⟩
      · rw [h6]
        exact ⟨[], by simp, by simp⟩
    · rw [h7]
      exact ⟨[], by simp, by simp⟩
  · rw [h8]
    exact ⟨[], by simp, by simp⟩

/-- C10: a mech document parsed without a numeric `mul id` stores a null
external-id reference on every staging row it creates; the finalizer
step is the identity on every such row on every invocation, and
finalization never modifies the staging table, so no Slot and no
WeaponInstance is ever created from that document's rows while the rows
themselves stay in staging unchanged. -/
theorem c10_null_external_id (σ : Store) (parsed : ParsedMech) (fn : Str)
    (mode : BvPvMode) (σR : Store) (mid : Nat) (ids : List Nat)
    (hmul : parsed.mul_id = none)
    (hok : Mtf.ingest_parsed_mech σ parsed fn mode = .ok (σR, mid, ids)) :
    (∃ new, σR.staging = σ.staging ++ new
      ∧ ∀ r ∈ new, r.mech_external_id = none)
    ∧ (∀ (acc : Store × Nat × Nat) (s : StagingSlotRow),
        s.mech_external_id = none → Mtf.finStep acc s = acc)
    ∧ (∀ σ2 : Store,
        (Mtf.finalize_slots_from_staging σ2).1.staging = σ2.staging) := by
  refine ⟨?_, ?_, ?_⟩
  · obtain ⟨new, hnew, hext⟩ :=
      ingest_staging_ext σ parsed fn mode σR mid ids hok
    refine ⟨new, hnew, fun r hr => ?_⟩
    rw [hext r hr, hmul]
    rfl
  · intro acc s hs
    rcases acc with ⟨σa, a, b⟩
    refine finStep_eq_none ?_
    unfold mechLookup
    rw [hs]
    rfl
  · intro σ2
    exact (foldFin_analysis _ (σ2, 0, 0)).2.1

/-- Witness for C10: the concrete document without a mul id ingests
successfully and every created staging row carries a null external id. -/
theorem c10_null_external_id_witness :
    Mtf.ingest_parsed_mech emptyStore c10Doc (("a.mtf").data) .enqueue
      = .ok c10Result
    ∧ ∃ new, c10Result.1.staging = emptyStore.staging ++ new
        ∧ ∀ r ∈ new, r.mech_external_id = none := by
  have hok : Mtf.ingest_parsed_mech emptyStore c10Doc (("a.mtf").data)
      .enqueue = .ok c10Result := by rfl
  exact ⟨hok, (c10_null_external_id emptyStore c10Doc (("a.mtf").data)
    .enqueue c10Result.1 c10Result.2.1 c10Result.2.2 rfl hok).1⟩

theorem insertMech_dup {σ : Store} {mm : MechRow} (m : MechRow)
    (hm : m ∈ σ.mechs) (hsome : m.mul_id.isSome = true)
    (heq : m.mul_id = mm.mul_id) :
    insertMech σ mm = .error .integrity := by
  unfold insertMech
  have hC : σ.mechs.any
      (fun x => x.mul_id.isSome && decide (x.mul_id = mm.mul_id)) = true := by
    simp only [List.any_eq_true]
    refine ⟨m, hm, ?_⟩
    rw [heq] at hsome
    rw [heq]
    simp [hsome]
  rw [hC]
  rfl

theorem bind_insertMech_dup {σ : Store} {mm : MechRow} {β : Type}
    (f : Store → Except IngestError β) (m : MechRow) (hm : m ∈ σ.mechs)
    (hsome : m.mul_id.isSome = true) (heq : m.mul_id = mm.mul_id) :
    (insertMech σ mm >>= f) = .error .integrity := by
  rw [insertMech_dup m hm hsome heq]
  rfl

theorem insertVehicleLocation_vehicles {σ σ2 : Store}
    {l : VehicleLocationRow} (h : insertVehicleLocation σ l = .ok σ2) :
    σ2.vehicles = σ.vehicles := by
  unfold insertVehicleLocation at h
  split at h
  · cases h
  · cases h
    rfl

theorem stageItemsV_vehicles (fn : Str) (ext : Option Str) (ln : Str) :
    ∀ (items : List Str) (σ : Store) (idx : Nat),
    (Blk.stageItems σ fn ext ln items idx).1.vehicles = σ.vehicles := by
  intro items
  induction items with
  | nil => intro σ idx; rfl
  | cons x xs ih =>
    intro σ idx
    unfold Blk.stageItems
    dsimp only
    exact ih _ _

theorem stageLocationsV_vehicles (fn : Str) (ext : Option Str) (vid : Nat) :
    ∀ (eqp : List (Str × List Str)) (σ σ2 : Store) (ids : List Nat),
    Blk.stageLocations σ fn ext vid eqp = .ok (σ2, ids) →
    σ2.vehicles = σ.vehicles := by
  intro eqp
  induction eqp with
  | nil =>
    intro σ σ2 ids h
    cases h
    rfl
  | cons p rest ih =>
    obtain ⟨ln, items⟩ := p
    intro σ σ2 ids h
    unfold Blk.stageLocations at h
    obtain ⟨σ1, hins, h⟩ := bind_ok h
    dsimp only at h
    obtain ⟨restRes, hrest, h⟩ := bind_ok h
    obtain ⟨σr, idsr⟩ := restRes
    cases h
    have h1 := insertVehicleLocation_vehicles hins
    have h2 := ih _ _ _ hrest
    rw [h2, stageItemsV_vehicles, h1]

theorem sysMfgFoldV_vehicles (vid : Nat) :
    ∀ (kvs : List (Str × Str)) (σ : Store),
    (kvs.foldl (fun σ kv =>
      {σ with vehicle_system_manufacturers :=
        σ.vehicle_system_manufacturers ++ [⟨σ.nextId, vid, kv.1, kv.2⟩],
              nextId := σ.nextId + 1}) σ).vehicles = σ.vehicles := by
  intro kvs
  induction kvs with
  | nil => intro σ; rfl
  | cons kv rest ih =>
    intro σ
    rw [List.foldl_cons, ih]

theorem manufacturerLoopV_vehicles (entry : Store) (X : List VehicleRow)
    (he : entry.vehicles = X) :
    ∀ (ms : List Str) (σ : Store) (vid : Nat), σ.vehicles = X →
    (Blk.manufacturerLoopV entry σ vid ms).vehicles = X := by
  intro ms
  induction ms with
  | nil => intro σ vid hσ; exact hσ
  | cons mname rest ih =>
    intro σ vid hσ
    unfold Blk.manufacturerLoopV
    dsimp only
    split
    · exact ih σ vid hσ
    · cases hf : σ.manufacturers.find? (fun x => x.name = strip mname) with
      | some x =>
        dsimp only
        split
        · exact ih entry vid he
        · exact ih _ vid hσ
      | none =>
        dsimp only
        split
        · exact ih entry vid he
        · exact ih _ vid hσ

theorem factoryLoopV_vehicles (entry : Store) (X : List VehicleRow)
    (he : entry.vehicles = X) :
    ∀ (fs : List Str) (σ : Store) (vid : Nat), σ.vehicles = X →
    (Blk.factoryLoopV entry σ vid fs).vehicles = X := by
  intro fs
  induction fs with
  | nil => intro σ vid hσ; exact hσ
  | cons fname rest ih =>
    intro σ vid hσ
    unfold Blk.factoryLoopV
    dsimp only
    split
    · exact ih σ vid hσ
    · cases hf : σ.factories.find? (fun x => x.name = strip fname) with
      | some x =>
        dsimp only
        split
        · exact ih entry vid he
        · exact ih _ vid hσ
      | none =>
        dsimp only
        split
        · exact ih entry vid he
        · exact ih _ vid hσ

/-- Counterexample to C4: a store already holds a mech keyed by the
incoming document's external id, yet the mech pipeline does not reuse
that row — it always inserts a fresh one, so the flush trips the unique
constraint on `mul_id` and the whole ingestion fails with an integrity
error instead of returning the existing unit. -/
theorem c4_counterexample :
    (∃ m ∈ c4Store.mechs, m.mul_id.isSome = true
      ∧ m.mul_id = c4MechDoc.mul_id)
    ∧ Mtf.ingest_parsed_mech c4Store c4MechDoc (("a2.mtf").data) .skip
        = .error .integrity := by
  exact ⟨⟨c4MechRow, by decide, by decide, by decide⟩, by rfl⟩

/-- C4 (amended): only the vehicle pipeline reuses a persisted unit
matched by external id — the matched row is returned verbatim, the
vehicles table is left unchanged, and the returned id is the existing
row's id; the mech pipeline never reuses: ingesting a document whose
external id already belongs to a persisted mech fails with an integrity
error. -/
theorem c4_unit_reuse_amended :
    (∀ (σ : Store) (parsed : ParsedVehicle) (fn : Str) (σR : Store)
       (vid : Nat) (ids : List Nat) (v : VehicleRow),
       truthyInt parsed.mul_id = true →
       σ.vehicles.find? (fun x => x.mul_id = parsed.mul_id) = some v →
       Blk.ingest_parsed_vehicle σ parsed fn = .ok (σR, vid, ids) →
       σR.vehicles = σ.vehicles ∧ vid = v.id)
    ∧ (∀ (σ : Store) (parsed : ParsedMech) (fn : Str) (mode : BvPvMode)
       (m : MechRow), m ∈ σ.mechs → m.mul_id.isSome = true →
       m.mul_id = parsed.mul_id →
       Mtf.ingest_parsed_mech σ parsed fn mode = .error .integrity) := by
  constructor
  · intro σ parsed fn σR vid ids v hmul hfind hok
    unfold Blk.ingest_parsed_vehicle at hok
    dsimp only at hok
    have hex : (if truthyInt parsed.mul_id then
        σ.vehicles.find? (fun x => x.mul_id = parsed.mul_id)
        else none) = some v := by
      rw [hmul]
      exact hfind
    rw [hex] at hok
    dsimp only at hok
    obtain ⟨vr, hvr, hok⟩ := bind_ok hok
    injection hvr with hvr2
    subst hvr2
    dsimp only at hok
    obtain ⟨staged, hstage, hok⟩ := bind_ok hok
    obtain ⟨σ2s, ids2⟩ := staged
    dsimp only at hok
    simp only [Except.ok.injEq, Prod.mk.injEq] at hok
    obtain ⟨hσR, hvid, hids⟩ := hok
    refine ⟨?_, hvid.symm⟩
    rw [← hσR]
    refine factoryLoopV_vehicles σ σ.vehicles rfl parsed.factory _ v.id ?_
    refine manufacturerLoopV_vehicles σ σ.vehicles rfl
      parsed.manufacturer _ v.id ?_
    rw [sysMfgFoldV_vehicles]
    exact stageLocationsV_vehicles fn _ v.id parsed.equipment σ σ2s
      ids2 hstage
  · intro σ parsed fn mode m hm hsome heq
    unfold Mtf.ingest_parsed_mech
    dsimp only
    refine bind_insertMech_dup _ m ?_ ?_ ?_
    · exact hm
    · exact hsome
    · exact heq

/-- Witness for the amended C4: re-ingesting the vehicle document whose
external id matches the persisted vehicle keeps the vehicles table
unchanged and returns the persisted id, while the mech document whose
external id matches the persisted mech makes the mech pipeline fail. -/
theorem c4_unit_reuse_amended_witness :
    c4VehResult.1.vehicles = c4Store.vehicles
    ∧ c4VehResult.2.1 = c4VehRow.id
    ∧ Mtf.ingest_parsed_mech c4Store c4MechDoc (("c.mtf").data) .skip
        = .error .integrity := by
  have hok : Blk.ingest_parsed_vehicle c4Store c4VehDoc (("b.blk").data)
      = .ok (c4VehResult.1, c4VehResult.2.1, c4VehResult.2.2) := by rfl
  obtain ⟨h1, h2⟩ := c4_unit_reuse_amended.1 c4Store c4VehDoc
    (("b.blk").data) c4VehResult.1 c4VehResult.2.1 c4VehResult.2.2
    c4VehRow (by decide) (by decide) hok
  exact ⟨h1, h2, c4_unit_reuse_amended.2 c4Store c4MechDoc
    (("c.mtf").data) .skip c4MechRow (by decide) (by decide) (by decide)⟩

/-- C5: the duplicate-association handler calls `session.rollback()`,
which discards every uncommitted write of the document — not just the
one association.  Ingesting a document that lists the same manufacturer
twice still returns success with the staging ids it allocated, yet the
committed store holds no mech row, no staging row and no manufacturer
row from the document: only the loader-log entry added after the
rollback survives. -/
theorem c5_rollback_granularity :
    Mtf.ingest_parsed_mech emptyStore c5Doc (("d.mtf").data) .skip
      = .ok c5Result
    ∧ c5Result.2.2.length = 1
    ∧ c5Result.1.mechs = []
    ∧ c5Result.1.staging = []
    ∧ c5Result.1.manufacturers = []
    ∧ c5Result.1.loader_log.length = 1 := by
  exact ⟨by rfl, by rfl, by rfl, by rfl, by rfl, by rfl⟩

/-- C9: the armor-block parse skips the non-numeric line without
failing and keeps the six integers in order; ingesting the document
maps them positionally onto [front, left, right, rear, turret], the
sixth value 99 being discarded; in general the armor loop stores
min(length, 5) rows. -/
theorem c9_armor_positional :
    armorValues c9Block = [10, 8, 8, 5, 6, 99]
    ∧ c9Result.1.vehicle_armor.map (fun r => (r.location, r.points)) =
        [((("front").data), (10 : Int)), ((("left").data), 8),
         ((("right").data), 8), ((("rear").data), 5),
         ((("turret").data), 6)]
    ∧ ∀ (vid fid : Nat) (armor : List Int),
        (armorRowsFor vid armor fid).length = min armor.length 5 := by
  refine ⟨by rfl, by rfl, ?_⟩
  intro vid fid armor
  simp [armorRowsFor, armor_locations]

end MechApi